import Mathlib

set_option maxRecDepth 8000

/-!
Verification development for the deterministic plan-synthesis and validation
engine of the AI-UI-Builder repository.

The TypeScript sources are shallowly embedded as executable Lean functions:

* JavaScript strings are modelled as Lean `String` (a packed `List Char`);
  `charCodeAt` is modelled by `Char.toNat` (the two agree on the basic
  multilingual plane, which covers every string the program manipulates),
  `toLowerCase` by per-character ASCII lowering.
* JavaScript numbers appearing in plans are modelled as `Int` (every number
  the program itself produces is an integer); 32-bit wrap-around
  (`>>> 0`, `>>`, `%`) is modelled explicitly with `% 2^32`, `Int.fdiv`
  (arithmetic shift) and `Int.tmod` (JavaScript's truncating remainder).
* JSON values are a dedicated inductive `Json`; `JSON.stringify(·, null, 2)`
  and `JSON.parse` are modelled by an executable printer and a fuel-indexed
  recursive-descent parser (numbers restricted to integer literals, the only
  form the printer emits).
* The handful of regular expressions used by the planner and the validators
  are alternations of literals, optionally with `\b` anchors and `\s+` gaps;
  they are embedded by an executable matcher over exactly that fragment.
* Fallible code returns `Option`/`Except`; `fetch` outcomes, credentials and
  clock/random values consumed by the code are passed in explicitly.
-/

namespace UIB

/-! ## Characters and strings -/

/-- ASCII word character, the `\w`/`\b` class of JavaScript regexes. -/
def jsWordChar (c : Char) : Bool := c.isAlphanum || c == '_'

/-- JavaScript `toLowerCase`, restricted to ASCII case mapping. -/
def toLowerStr (s : String) : String := String.mk (s.toList.map Char.toLower)

/-- Substring test (`String.prototype.includes`) on character lists. -/
def containsSub (hay needle : List Char) : Bool :=
  match hay with
  | [] => needle.isEmpty
  | _ :: t => needle.isPrefixOf hay || containsSub t needle

/-- `String.prototype.includes`. -/
def strIncludes (s sub : String) : Bool := containsSub s.toList sub.toList

/-- JavaScript `trim` (both ends, whitespace). -/
def jsTrim (s : String) : String :=
  String.mk (((s.toList.dropWhile Char.isWhitespace).reverse.dropWhile
    Char.isWhitespace).reverse)

/-- Split on a single literal separator character, keeping empty pieces,
as JavaScript `split("x")` does. -/
def splitChar (sep : Char) : List Char → List (List Char)
  | [] => [[]]
  | c :: cs =>
    match splitChar sep cs with
    | [] => [[]]
    | w :: ws => if c == sep then [] :: w :: ws else (c :: w) :: ws

/-- Join with a single separator character (`Array.prototype.join`, the
inverse of `splitChar`). -/
def joinChar (sep : Char) : List (List Char) → List Char
  | [] => []
  | [w] => w
  | w :: w2 :: ws => w ++ sep :: joinChar sep (w2 :: ws)

mutual
/-- Splitting on `/\s+/` (runs of whitespace), as JavaScript `split(/\s+/)`:
a leading or trailing run contributes an empty piece. `splitWsGo` is inside a
piece (`cur` holds its characters reversed). -/
def splitWsGo (cur : List Char) : List Char → List (List Char)
  | [] => [cur.reverse]
  | c :: cs =>
    if c.isWhitespace then cur.reverse :: splitWsSkip cs
    else splitWsGo (c :: cur) cs

/-- Inside a whitespace run just after a separator was consumed. -/
def splitWsSkip : List Char → List (List Char)
  | [] => [[]]
  | c :: cs => if c.isWhitespace then splitWsSkip cs else splitWsGo [c] cs
end

def splitWs (cs : List Char) : List (List Char) := splitWsGo [] cs

/-! ## The regular-expression fragment used by the sources

Every regex in the embedded code is an alternation of alternatives, each a
sequence of literals and `\s+` gaps, optionally anchored by `\b` at either
end.  In every such pattern a `\s+` gap is followed by a literal starting
with a non-space character, so the greedy whitespace consumption below is
exact, and every `\b`-anchored alternative starts/ends with a word
character, so the boundary test reduces to the neighbouring character being
a non-word character or the string edge. -/

inductive RTok where
  | lit (cs : List Char)
  | ws

structure RAlt where
  bl : Bool
  toks : List RTok
  br : Bool

/-- Length of the leading whitespace run. -/
def wsRun : List Char → Nat
  | [] => 0
  | c :: cs => if c.isWhitespace then wsRun cs + 1 else 0

def matchToks : List RTok → List Char → Option (List Char)
  | [], cs => some cs
  | RTok.lit l :: ts, cs =>
    if l.isPrefixOf cs then matchToks ts (cs.drop l.length) else none
  | RTok.ws :: ts, cs =>
    let n := wsRun cs
    if n == 0 then none else matchToks ts (cs.drop n)

def boundaryOk : Option Char → Bool
  | none => true
  | some c => !jsWordChar c

def altMatchAt (a : RAlt) (prev : Option Char) (cs : List Char) : Bool :=
  (!a.bl || boundaryOk prev) &&
    match matchToks a.toks cs with
    | none => false
    | some rest => !a.br || boundaryOk rest.head?

def reTestAux (alts : List RAlt) : Option Char → List Char → Bool
  | prev, [] => alts.any (fun a => altMatchAt a prev [])
  | prev, c :: cs =>
    alts.any (fun a => altMatchAt a prev (c :: cs)) || reTestAux alts (some c) cs

/-- `pattern.test(s)`: does the alternation match anywhere in `s`? -/
def reTest (alts : List RAlt) (s : String) : Bool := reTestAux alts none s.toList

/-- One-literal alternative with optional boundary anchors. -/
def ralt (b1 : Bool) (s : String) (b2 : Bool) : RAlt :=
  RAlt.mk b1 [RTok.lit s.toList] b2

/-! ## JSON values -/

inductive Json where
  | null
  | str (s : String)
  | num (n : Int)
  | bool (b : Bool)
  | arr (elems : List Json)
  | obj (fields : List (String × Json))

/-- Field lookup in a JSON object (JavaScript property access; the sources
only build objects with pairwise distinct keys). -/
def getProp (fields : List (String × Json)) (k : String) : Option Json :=
  (fields.find? (fun kv => kv.1 == k)).map (fun kv => kv.2)

mutual
/-- Structural weight of a JSON value, the fuel bound for the fuel-indexed
recursions below. -/
def jsonWeight : Json → Nat
  | .arr es => 1 + jsonListWeight es
  | .obj fs => 1 + jsonFieldsWeight fs
  | _ => 1

def jsonListWeight : List Json → Nat
  | [] => 0
  | j :: js => 1 + jsonWeight j + jsonListWeight js

def jsonFieldsWeight : List (String × Json) → Nat
  | [] => 0
  | kv :: fs => 1 + jsonWeight kv.2 + jsonFieldsWeight fs
end

/-! ## `JSON.stringify(·, null, 2)` -/

def digitChar (n : Nat) : Char := Char.ofNat (48 + n)

/-- Decimal digits of `n`, most significant first; the fuel (strictly more
than the number of digits) makes the recursion structural. -/
def renderNatAux : Nat → Nat → List Char
  | 0, _ => []
  | fuel + 1, n =>
    if n < 10 then [digitChar n]
    else renderNatAux fuel (n / 10) ++ [digitChar (n % 10)]

def renderNat (n : Nat) : List Char := renderNatAux (n + 1) n

/-- JavaScript number-to-string for the integers the program produces. -/
def renderInt (i : Int) : List Char :=
  if i < 0 then '-' :: renderNat i.natAbs else renderNat i.toNat

def hexDigitChar (n : Nat) : Char :=
  if n < 10 then Char.ofNat (48 + n) else Char.ofNat (87 + n)

/-- The escape `JSON.stringify` applies inside a string literal. -/
def escapeJsonChar (c : Char) : List Char :=
  if c == '"' then ['\\', '"']
  else if c == '\\' then ['\\', '\\']
  else if c == '\n' then ['\\', 'n']
  else if c == '\r' then ['\\', 'r']
  else if c == '\t' then ['\\', 't']
  else if c == Char.ofNat 8 then ['\\', 'b']
  else if c == Char.ofNat 12 then ['\\', 'f']
  else if c.toNat < 32 then
    ['\\', 'u', '0', '0', hexDigitChar (c.toNat / 16), hexDigitChar (c.toNat % 16)]
  else [c]

def renderStr (s : String) : List Char :=
  '"' :: s.toList.flatMap escapeJsonChar ++ ['"']

def indentChars (n : Nat) : List Char := List.replicate n ' '

mutual
/-- `JSON.stringify(v, null, 2)` at nesting indent `ind`: children of a
composite are indented two further, the closing bracket sits at `ind`. -/
def renderJson : Nat → Json → List Char
  | _, .null => "null".toList
  | _, .str s => renderStr s
  | _, .num n => renderInt n
  | _, .bool b => if b then "true".toList else "false".toList
  | _, .arr [] => ['[', ']']
  | ind, .arr (e :: es) =>
    '[' :: '\n' :: (renderElems (ind + 2) (e :: es) ++ '\n' :: (indentChars ind ++ [']']))
  | _, .obj [] => ['\x7b', '\x7d']
  | ind, .obj (f :: fs) =>
    '\x7b' :: '\n' :: (renderFields (ind + 2) (f :: fs) ++ '\n' :: (indentChars ind ++ ['\x7d']))

def renderElems : Nat → List Json → List Char
  | _, [] => []
  | ind, [e] => indentChars ind ++ renderJson ind e
  | ind, e :: e2 :: es =>
    indentChars ind ++ renderJson ind e ++ ',' :: '\n' :: renderElems ind (e2 :: es)

def renderFields : Nat → List (String × Json) → List Char
  | _, [] => []
  | ind, [kv] => indentChars ind ++ (renderStr kv.1 ++ ':' :: ' ' :: renderJson ind kv.2)
  | ind, kv :: kv2 :: fs =>
    indentChars ind ++ (renderStr kv.1 ++ ':' :: ' ' :: renderJson ind kv.2)
      ++ ',' :: '\n' :: renderFields ind (kv2 :: fs)
end

/-! ## `JSON.parse`

A fuel-indexed recursive-descent parser.  Numbers are restricted to the
integer literals the printer emits; strings accept exactly the JSON escapes.
The parser is only ever proved correct on printed output; on other input it
is a sound model of which payloads the pipeline treats as parseable. -/

def jsonWsChar (c : Char) : Bool := c == ' ' || c == '\t' || c == '\n' || c == '\r'

def skipWs (cs : List Char) : List Char := cs.dropWhile jsonWsChar

def hexVal (c : Char) : Option Nat :=
  if c.isDigit then some (c.toNat - 48)
  else if 'a' ≤ c && c ≤ 'f' then some (c.toNat - 87)
  else if 'A' ≤ c && c ≤ 'F' then some (c.toNat - 55)
  else none

/-- Body of a JSON string literal after the opening quote: the decoded
characters and the input after the closing quote. -/
def parseStrAux : List Char → Option (List Char × List Char)
  | [] => none
  | '"' :: rest => some ([], rest)
  | '\\' :: 'u' :: h1 :: h2 :: h3 :: h4 :: rest =>
    match hexVal h1, hexVal h2, hexVal h3, hexVal h4 with
    | some a, some b, some c, some d =>
      (parseStrAux rest).map (fun p =>
        (Char.ofNat (((a * 16 + b) * 16 + c) * 16 + d) :: p.1, p.2))
    | _, _, _, _ => none
  | '\\' :: e :: rest =>
    (if e == '"' then some '"'
     else if e == '\\' then some '\\'
     else if e == '/' then some '/'
     else if e == 'n' then some '\n'
     else if e == 'r' then some '\r'
     else if e == 't' then some '\t'
     else if e == 'b' then some (Char.ofNat 8)
     else if e == 'f' then some (Char.ofNat 12)
     else none).bind (fun c => (parseStrAux rest).map (fun p => (c :: p.1, p.2)))
  | c :: rest => (parseStrAux rest).map (fun p => (c :: p.1, p.2))

def parseNatAux (acc : Nat) : List Char → Nat × List Char
  | [] => (acc, [])
  | c :: cs =>
    if c.isDigit then parseNatAux (acc * 10 + (c.toNat - 48)) cs else (acc, c :: cs)

mutual
def parseVal : Nat → List Char → Option (Json × List Char)
  | 0, _ => none
  | fuel + 1, cs =>
    match skipWs cs with
    | '"' :: r => (parseStrAux r).map (fun p => (Json.str (String.mk p.1), p.2))
    | '[' :: r =>
      (match skipWs r with
       | ']' :: r2 => some (Json.arr [], r2)
       | _ => (parseElems fuel r).map (fun p => (Json.arr p.1, p.2)))
    | '\x7b' :: r =>
      (match skipWs r with
       | '\x7d' :: r2 => some (Json.obj [], r2)
       | _ => (parseFields fuel r).map (fun p => (Json.obj p.1, p.2)))
    | 't' :: r =>
      if ['r', 'u', 'e'].isPrefixOf r then some (Json.bool true, r.drop 3) else none
    | 'f' :: r =>
      if ['a', 'l', 's', 'e'].isPrefixOf r then some (Json.bool false, r.drop 4) else none
    | 'n' :: r =>
      if ['u', 'l', 'l'].isPrefixOf r then some (Json.null, r.drop 3) else none
    | '-' :: c :: r =>
      if c.isDigit then
        let p := parseNatAux 0 (c :: r)
        some (Json.num (-(p.1 : Int)), p.2)
      else none
    | c :: r =>
      if c.isDigit then
        let p := parseNatAux 0 (c :: r)
        some (Json.num (p.1 : Int), p.2)
      else none
    | [] => none

/-- Elements of a non-empty array, positioned just after `[` or `,`. -/
def parseElems : Nat → List Char → Option (List Json × List Char)
  | 0, _ => none
  | fuel + 1, cs => do
    let p ← parseVal fuel cs
    match skipWs p.2 with
    | ',' :: r => (parseElems fuel r).map (fun q => (p.1 :: q.1, q.2))
    | ']' :: r => some ([p.1], r)
    | _ => none

/-- Fields of a non-empty object, positioned just after `{` or `,`. -/
def parseFields : Nat → List Char → Option (List (String × Json) × List Char)
  | 0, _ => none
  | fuel + 1, cs =>
    match skipWs cs with
    | '"' :: r => do
      let k ← parseStrAux r
      match skipWs k.2 with
      | ':' :: r2 => do
        let v ← parseVal fuel r2
        match skipWs v.2 with
        | ',' :: r3 => (parseFields fuel r3).map (fun q =>
            ((String.mk k.1, v.1) :: q.1, q.2))
        | '\x7d' :: r3 => some ([(String.mk k.1, v.1)], r3)
        | _ => none
      | _ => none
    | _ => none
end

/-- `JSON.parse`: the whole string must be one value plus whitespace. -/
def jsonParse (s : String) : Option Json :=
  match parseVal (s.toList.length + 1) s.toList with
  | some (j, rest) => if (skipWs rest).isEmpty then some j else none
  | none => none

/-! ## Data model (`src/types/agent.ts`) -/

def ALLOWED_COMPONENTS : List String :=
  ["Button", "Card", "Input", "Table", "Modal", "Sidebar", "Navbar", "Chart"]

/-- `UINode`: `props` is the JSON record the TypeScript type carries as
`Record<string, unknown>`; `children` is `undefined` (`none`) or a list. -/
inductive UINode where
  | mk (id : String) (component : String) (props : List (String × Json))
       (children : Option (List UINode))

def UINode.id : UINode → String
  | .mk i _ _ _ => i

def UINode.component : UINode → String
  | .mk _ c _ _ => c

def UINode.props : UINode → List (String × Json)
  | .mk _ _ p _ => p

def UINode.children : UINode → Option (List UINode)
  | .mk _ _ _ ch => ch

structure UIPlan where
  mode : String
  root : List UINode
  modificationInstructions : Option String

/-! ## Plan serialization: the JSON value of a plan object

`JSON.stringify`, `zod.safeParse` and property access all see a plan as its
JSON value; fields are listed in the object-literal insertion order of the
sources, and an `undefined` optional field is absent. -/

mutual
def nodeToJson : UINode → Json
  | .mk i c p ch =>
    Json.obj ([("id", Json.str i), ("component", Json.str c), ("props", Json.obj p)] ++
      (match ch with
       | some l => [("children", Json.arr (nodesToJson l))]
       | none => []))

def nodesToJson : List UINode → List Json
  | [] => []
  | n :: ns => nodeToJson n :: nodesToJson ns
end

def planToJson (p : UIPlan) : Json :=
  Json.obj ([("mode", Json.str p.mode), ("root", Json.arr (nodesToJson p.root))] ++
    (match p.modificationInstructions with
     | some s => [("modificationInstructions", Json.str s)]
     | none => []))

/-! ## Schema phase (`uiPlanSchema` / `uiNodeSchema`, zod) -/

mutual
/-- `uiNodeSchema.safeParse` on a JSON value: the decoded node, or `none` on
a schema violation.  zod strips keys outside the schema, so the result keeps
exactly the four declared fields. -/
def decodeNode : Nat → Json → Option UINode
  | 0, _ => none
  | fuel + 1, .obj fs =>
    (match getProp fs "id", getProp fs "component", getProp fs "props" with
     | some (.str i), some (.str c), some (.obj props) =>
       if i.length != 0 && ALLOWED_COMPONENTS.contains c then
         match getProp fs "children" with
         | none => some (UINode.mk i c props none)
         | some (.arr es) =>
           (decodeNodes fuel es).map (fun ns => UINode.mk i c props (some ns))
         | some _ => none
       else none
     | _, _, _ => none)
  | _ + 1, _ => none

def decodeNodes : Nat → List Json → Option (List UINode)
  | 0, _ => none
  | _ + 1, [] => some []
  | fuel + 1, j :: js =>
    match decodeNode fuel j, decodeNodes fuel js with
    | some n, some ns => some (n :: ns)
    | _, _ => none
end

/-- `uiPlanSchema.safeParse` on a JSON value. -/
def decodePlan (j : Json) : Option UIPlan :=
  match j with
  | .obj fs =>
    (match getProp fs "mode", getProp fs "root" with
     | some (.str m), some (.arr rootJs) =>
       if (m == "stack" || m == "grid" || m == "split") && rootJs.length != 0 then
         match decodeNodes (jsonListWeight rootJs + 1) rootJs with
         | some ns =>
           (match getProp fs "modificationInstructions" with
            | none => some (UIPlan.mk m ns none)
            | some (.str s) => some (UIPlan.mk m ns (some s))
            | some _ => none)
         | none => none
       else none
     | _, _ => none)
  | _ => none

/-! ## Semantic phase (`validateNodeSchema`, per-component prop schemas) -/

def isStrVal : Json → Bool
  | .str _ => true
  | _ => false

/-- `z.string().min(1)`. -/
def isNonEmptyStrVal : Json → Bool
  | .str s => s.length != 0
  | _ => false

def isStrArrVal : Json → Bool
  | .arr xs => xs.all isStrVal
  | _ => false

def isStrMatrixVal : Json → Bool
  | .arr xs =>
    xs.all (fun r =>
      match r with
      | .arr cells => cells.all isStrVal
      | _ => false)
  | _ => false

def isBoolVal : Json → Bool
  | .bool _ => true
  | _ => false

def isNumVal : Json → Bool
  | .num _ => true
  | _ => false

/-- One point of Chart `data`: `z.object({label, value:number}).strict()`. -/
def isChartPointVal : Json → Bool
  | .obj fs =>
    fs.all (fun kv => kv.1 == "label" || kv.1 == "value") &&
      (match getProp fs "label" with
       | some v => isStrVal v
       | none => false) &&
      (match getProp fs "value" with
       | some v => isNumVal v
       | none => false)
  | _ => false

def isChartDataVal : Json → Bool
  | .arr xs => xs.all isChartPointVal
  | _ => false

/-- Keys confined to the schema's key set (`.strict()`). -/
def strictKeys (props : List (String × Json)) (allowed : List String) : Bool :=
  props.all (fun kv => allowed.contains kv.1)

def reqField (props : List (String × Json)) (k : String) (check : Json → Bool) : Bool :=
  match getProp props k with
  | some v => check v
  | none => false

def optField (props : List (String × Json)) (k : String) (check : Json → Bool) : Bool :=
  match getProp props k with
  | some v => check v
  | none => true

/-- `componentPropsValidators[component].safeParse(props).success`. -/
def componentPropsValid (component : String) (props : List (String × Json)) : Bool :=
  if component == "Button" then
    strictKeys props ["label", "variant"] && reqField props "label" isNonEmptyStrVal &&
      optField props "variant" (fun v =>
        match v with
        | .str s => s == "primary" || s == "secondary"
        | _ => false)
  else if component == "Card" then
    strictKeys props ["title"] && reqField props "title" isNonEmptyStrVal
  else if component == "Input" then
    strictKeys props ["label", "placeholder", "value"] &&
      reqField props "label" isNonEmptyStrVal &&
      optField props "placeholder" isStrVal && optField props "value" isStrVal
  else if component == "Table" then
    strictKeys props ["columns", "rows"] && reqField props "columns" isStrArrVal &&
      reqField props "rows" isStrMatrixVal
  else if component == "Modal" then
    strictKeys props ["title", "open"] && reqField props "title" isNonEmptyStrVal &&
      reqField props "open" isBoolVal
  else if component == "Sidebar" then
    strictKeys props ["title", "items"] && reqField props "title" isNonEmptyStrVal &&
      reqField props "items" isStrArrVal
  else if component == "Navbar" then
    strictKeys props ["title", "links"] && reqField props "title" isNonEmptyStrVal &&
      reqField props "links" isStrArrVal
  else if component == "Chart" then
    strictKeys props ["title", "data"] && reqField props "title" isNonEmptyStrVal &&
      reqField props "data" isChartDataVal
  else false

def childCapable (c : String) : Bool := c == "Card" || c == "Modal"

mutual
/-- `validateNodeSchema` pushes an error for invalid props or for children on
a non-container kind, then recurses; this model keeps only "no error was
pushed" (the error strings are not consumed by any property checked here). -/
def validateNodeSchema : UINode → Bool
  | .mk _ c p none => componentPropsValid c p
  | .mk _ c p (some l) =>
    componentPropsValid c p && (childCapable c || l.isEmpty) && validateNodesSchema l

def validateNodesSchema : List UINode → Bool
  | [] => true
  | n :: ns => validateNodeSchema n && validateNodesSchema ns
end

/-- `validatePlan`: zod schema phase, then the semantic per-node phase; on
success the zod-parsed plan is returned. -/
def validatePlan (payload : Json) : Option UIPlan :=
  match decodePlan payload with
  | none => none
  | some plan => if validateNodesSchema plan.root then some plan else none

/-! ## Prompt-injection filter -/

structure FilterResult where
  clean : String
  flagged : Bool

/-- The five `suspiciousPatterns`; the `i` flag is modelled by lowering the
input (each literal is lower-case). -/
def suspiciousPatterns : List (List RAlt) :=
  [[RAlt.mk false [RTok.lit "ignore".toList, RTok.ws, RTok.lit "all".toList,
      RTok.ws, RTok.lit "instructions".toList] false],
   [RAlt.mk false [RTok.lit "system".toList, RTok.ws, RTok.lit "prompt".toList] false],
   [RAlt.mk false [RTok.lit "developer".toList, RTok.ws, RTok.lit "message".toList] false],
   [RAlt.mk false [RTok.lit "execute".toList, RTok.ws, RTok.lit "code".toList] false],
   [RAlt.mk false [RTok.lit "bypass".toList, RTok.ws, RTok.lit "safety".toList] false]]

def filterPromptInjection (input : String) : FilterResult :=
  FilterResult.mk
    (jsTrim (String.mk (input.toList.filter (fun c => c != '<' && c != '>'))))
    (suspiciousPatterns.any (fun p => reTest p (toLowerStr input)))

/-! ## Generated-code safety checks -/

/-- `[^"']+["']` after the opening quote: at least one non-quote character,
then a closing quote of either kind. -/
def quotedTail : List Char → Bool
  | [] => false
  | c :: cs =>
    if c == '"' || c == Char.ofNat 39 then false else quotedRest cs
where
  quotedRest : List Char → Bool
    | [] => false
    | c :: cs => if c == '"' || c == Char.ofNat 39 then true else quotedRest cs

/-- Does `/from\s+["'](?!@\/components\/ui)[^"']+["']/` match at the head? -/
def badImportAt (cs : List Char) : Bool :=
  match matchToks [RTok.lit "from".toList, RTok.ws] cs with
  | none => false
  | some rest =>
    match rest with
    | q :: rest2 =>
      if q == '"' || q == Char.ofNat 39 then
        if ("@/components/ui".toList).isPrefixOf rest2 then false
        else quotedTail rest2
      else false
    | [] => false

def anyPosition (f : List Char → Bool) : List Char → Bool
  | [] => f []
  | c :: cs => f (c :: cs) || anyPosition f cs

/-- `validateGeneratedCode`: the four independent checks, `true` = valid. -/
def validateGeneratedCode (code : String) : Bool :=
  strIncludes code "from \"@/components/ui\"" &&
    !anyPosition badImportAt code.toList &&
    !strIncludes code "style=\x7b\x7b" &&
    !strIncludes code "dangerouslySetInnerHTML"

/-! ## Re-parsing a plan out of generated code -/

/-- The suffix after the first occurrence of `marker`. -/
def splitAfterFirst (marker : List Char) : List Char → Option (List Char)
  | [] => if marker.isEmpty then some [] else none
  | c :: cs =>
    if marker.isPrefixOf (c :: cs) then some ((c :: cs).drop marker.length)
    else splitAfterFirst marker cs

/-- The characters before the first occurrence of `marker`. -/
def takeUntilFirst (marker : List Char) : List Char → Option (List Char)
  | [] => if marker.isEmpty then some [] else none
  | c :: cs =>
    if marker.isPrefixOf (c :: cs) then some []
    else (takeUntilFirst marker cs).map (fun l => c :: l)

/-- The opening of the assignment the generator emits; the regex in
`parsePlanFromCode` allows flexible spacing (`\s+`, `\s*`), instantiated
here at the single spacing the generator produces. -/
def uiPlanMarker : List Char := "const uiPlanJson = ".toList ++ [Char.ofNat 96]

/-- `parsePlanFromCode`: locate the backtick-delimited blob (lazy up to the
first backtick-semicolon), `JSON.parse` it, and validate. -/
def parsePlanFromCode (code : String) : Option UIPlan :=
  match splitAfterFirst uiPlanMarker code.toList with
  | none => none
  | some after =>
    match takeUntilFirst [Char.ofNat 96, ';'] after with
    | none => none
    | some blob =>
      match jsonParse (String.mk blob) with
      | none => none
      | some j => validatePlan j

/-! ## Deterministic planner (`src/agent/planner.ts`)

Regex patterns, named after the component or branch that tests them.  A `\b`
anchor belongs only to the alternative it is adjacent to in the source
pattern (alternation binds loosest). -/

def pl (s : String) : RAlt := ralt false s false

def reModeStack : List RAlt :=
  [pl "minimal", pl "simple", pl "clean", pl "single column", pl "stack"]

def reModeGrid : List RAlt := [pl "grid", pl "cards layout", pl "two columns"]

def reNavbar : List RAlt :=
  [ralt true "navbar" false, pl "header", pl "top nav", ralt false "navigation" true]

def reSidebar : List RAlt :=
  [ralt true "sidebar" false, pl "side nav", ralt false "left nav" true]

def reCard : List RAlt :=
  [ralt true "card" false, pl "panel", pl "widget", ralt false "section" true]

def reInput : List RAlt :=
  [ralt true "input" false, pl "field", pl "form", pl "search", pl "textbox",
   pl "text box", pl "login", pl "signup", ralt false "register" true]

def reButton : List RAlt :=
  [ralt true "button" false, pl "cta", pl "submit", ralt false "action" true]

def reTable : List RAlt :=
  [ralt true "table" false, pl "list", pl "rows", pl "columns", ralt false "grid data" true]

def reModal : List RAlt := [ralt true "modal" false, pl "dialog", ralt false "popup" true]

def reChart : List RAlt :=
  [ralt true "chart" false, pl "graph", pl "analytics", pl "stats", pl "trend",
   ralt false "metrics" true]

def reDashboard : List RAlt :=
  [ralt true "dashboard" false, pl "admin", pl "portal", ralt false "console" true]

/-- `/\blogin|sign in|signup|register|auth\b/`, written twice verbatim in the
source (the compound trigger and the authentication-card special case). -/
def reAuth : List RAlt :=
  [ralt true "login" false, pl "sign in", pl "signup", ralt false "auth" true,
   pl "register"]

def reFeed : List RAlt :=
  [ralt true "feed" false, pl "social", pl "linkedin", pl "twitter",
   ralt false "instagram" true]

/-- `/\bfeed|social|linkedin\b/` used inside `buildIntentAwarePlan`. -/
def reFeedShort : List RAlt :=
  [ralt true "feed" false, pl "social", ralt false "linkedin" true]

def reEcommerce : List RAlt :=
  [ralt true "ecommerce" false, pl "store", ralt false "shop" true]

/-- `/signup|register/` (no anchors). -/
def reSignupWord : List RAlt := [pl "signup", pl "register"]

/-- `/\bsettings|preferences\b/`. -/
def reSettingsWord : List RAlt := [ralt true "settings" false, ralt false "preferences" true]

/-- `/minimal|simple|clean/` in `mergeModification`. -/
def reMinimalShort : List RAlt := [pl "minimal", pl "simple", pl "clean"]

/-- `/\bsettings\s+modal|settings dialog|settings popup\b/`. -/
def reSettingsModal : List RAlt :=
  [RAlt.mk true [RTok.lit "settings".toList, RTok.ws, RTok.lit "modal".toList] false,
   pl "settings dialog", ralt false "settings popup" true]

/-- `/\bconvert to|change to|make it like|turn into\b/`. -/
def reConvert : List RAlt :=
  [ralt true "convert to" false, pl "change to", pl "make it like",
   ralt false "turn into" true]

/-- `/\badd\b|\binclude\b|\binsert\b/`. -/
def reAdd : List RAlt :=
  [ralt true "add" true, ralt true "include" true, ralt true "insert" true]

/-- `/regenerate\s+from\s+scratch/i`. -/
def reRegenScratch : List RAlt :=
  [RAlt.mk false [RTok.lit "regenerate".toList, RTok.ws, RTok.lit "from".toList,
    RTok.ws, RTok.lit "scratch".toList] false]

def STOPWORDS : List String :=
  ["create", "build", "make", "design", "generate", "ui", "page", "screen",
   "dashboard", "app", "website", "for", "with", "and", "the", "a", "an",
   "to", "of", "in", "on", "from", "that", "this"]

/-- Rolling 32-bit hash of the input (`hash * 31 + charCodeAt`, `>>> 0`). -/
def hashIntent (input : String) : Nat :=
  input.toList.foldl (fun h c => (h * 31 + c.toNat) % 4294967296) 0

/-- `pickByHash` at element type `string`; the index is always in range for
the non-empty constant lists it is applied to. -/
def pickByHash (items : List String) (hash offset : Nat) : String :=
  items.getD ((hash + offset) % items.length) ""

/-- `pickByHash` at element type `string[]`. -/
def pickByHashL (items : List (List String)) (hash offset : Nat) : List String :=
  items.getD ((hash + offset) % items.length) []

/-- The character class `[^a-z0-9\s]` replaced by a space (the input is
already lower-cased when this runs). -/
def sanitizeChar (c : Char) : Char :=
  if ('a' ≤ c && c ≤ 'z') || c.isDigit || c.isWhitespace then c else ' '

/-- Order-preserving de-duplication (`Array.from(new Set(xs))`). -/
def dedupeAux (seen : List String) : List String → List String
  | [] => []
  | x :: xs =>
    if seen.contains x then dedupeAux seen xs
    else x :: dedupeAux (x :: seen) xs

def extractKeyPhrases (intent : String) : List String :=
  let words := (splitWs ((intent.toList.map Char.toLower).map sanitizeChar)).map String.mk
  let filtered := words.filter (fun w => w.length > 2 && !STOPWORDS.contains w)
  (dedupeAux [] filtered).take 6

def capitalizeWord (w : List Char) : List Char :=
  match w with
  | [] => []
  | c :: cs => Char.toUpper c :: cs.map Char.toLower

def toTitleCase (s : String) : String :=
  String.mk (joinChar ' '
    (((splitChar ' ' s.toList).filter (fun w => !w.isEmpty)).map capitalizeWord))

def inferTopic (intent : String) : String :=
  let phrases := extractKeyPhrases intent
  if phrases.isEmpty then "Workspace"
  else toTitleCase (String.intercalate " " (phrases.take 2))

def inferMode (intent : String) : String :=
  if reTest reModeStack (toLowerStr intent) then "stack"
  else if reTest reModeGrid (toLowerStr intent) then "grid"
  else "split"

structure Requested where
  navbar : Bool
  sidebar : Bool
  card : Bool
  input : Bool
  button : Bool
  table : Bool
  modal : Bool
  chart : Bool

def inferRequestedComponents (intent : String) : Requested :=
  let text := toLowerStr intent
  let base := Requested.mk (reTest reNavbar text) (reTest reSidebar text)
    (reTest reCard text) (reTest reInput text) (reTest reButton text)
    (reTest reTable text) (reTest reModal text) (reTest reChart text)
  let r1 :=
    if reTest reDashboard text then
      { base with navbar := true, sidebar := true, card := true, chart := true }
    else base
  let r2 :=
    if reTest reAuth text then { r1 with card := true, input := true, button := true }
    else r1
  let r3 :=
    if reTest reFeed text then
      { r2 with navbar := true, sidebar := true, card := true, table := true }
    else r2
  if r3.navbar || r3.sidebar || r3.card || r3.input || r3.button || r3.table ||
      r3.modal || r3.chart then r3
  else { r3 with navbar := true, card := true, input := true, button := true }

/-- The node factory: `id` is `component.toLowerCase() + "-" + counter`; the
counter value each call consumes is threaded explicitly below, in the
JavaScript evaluation order (arguments — so children — before the call). -/
def mkNode (component : String) (props : List (String × Json))
    (children : Option (List UINode)) (k : Nat) : UINode :=
  UINode.mk (toLowerStr component ++ "-" ++ toString k) component props children

def strArr (l : List String) : Json := Json.arr (l.map Json.str)

def rowsJson (rows : List (List String)) : Json := Json.arr (rows.map strArr)

def chartDataJson (d : List (String × Int)) : Json :=
  Json.arr (d.map (fun p => Json.obj [("label", Json.str p.1), ("value", Json.num p.2)]))

def buildTableRowsFromIntent (phrases : List String) (hash : Nat) : List (List String) :=
  let subjectA := toTitleCase (phrases.getD 0 "Item")
  let subjectB := toTitleCase (phrases.getD 1 "Status")
  let subjectC := toTitleCase (phrases.getD 2 "Owner")
  let states := ["Draft", "Active", "Review", "Blocked", "Done"]
  let actions := ["View", "Edit", "Open", "Inspect", "Track"]
  [[subjectA ++ " A", pickByHash states hash 1, subjectC ++ " 1"],
   [subjectA ++ " B", pickByHash states hash 2, subjectC ++ " 2"],
   [subjectA ++ " C", pickByHash states hash 3, pickByHash actions hash 4],
   [subjectB ++ " D", pickByHash states hash 0, pickByHash actions hash 2]]

/-- JavaScript `ToInt32` of an unsigned 32-bit value. -/
def toInt32 (n : Nat) : Int :=
  let m := n % 4294967296
  if m < 2147483648 then (m : Int) else (m : Int) - 4294967296

/-- JavaScript `>>` (arithmetic shift = flooring division). -/
def jsShr (x : Int) (k : Nat) : Int := Int.fdiv x (2 ^ k)

/-- `10 + ((hash >> (idx % 16)) % 26) + idx * 2` with JavaScript `>>`
(signed 32-bit) and `%` (truncating) semantics. -/
def buildChartData (hash : Nat) : List (String × Int) :=
  (["Mon", "Tue", "Wed", "Thu", "Fri", "Sat"].enum).map (fun p =>
    (p.2, 10 + Int.tmod (jsShr (toInt32 hash) (p.1 % 16)) 26 + 2 * (p.1 : Int)))

def buildIntentAwarePlan (intent : String) : UIPlan :=
  let mode := inferMode intent
  let topic := inferTopic intent
  let hash := hashIntent (toLowerStr intent)
  let phrases := extractKeyPhrases intent
  let requested := inferRequestedComponents intent
  let text := toLowerStr intent
  let altNavSets : List (List String) :=
    [["Overview", "Discover", "Updates", "Settings"],
     ["Home", "Insights", "Tasks", "Team"],
     ["Feed", "Explore", "Alerts", "Profile"],
     ["Summary", "Pipelines", "Reports", "Preferences"]]
  let altSidebarSets : List (List String) :=
    [["Dashboard", "Projects", "Timeline", "Members", "Settings"],
     ["Workspace", "Queue", "Approvals", "Analytics", "Admin"],
     ["Library", "Collections", "Bookmarks", "Notifications", "Help"],
     ["Catalog", "Operations", "Billing", "Users", "Security"]]
  let actionPrimary := pickByHash ["Apply", "Create", "Save", "Search", "Launch"] hash 1
  let actionSecondary := pickByHash ["Reset", "Clear", "Cancel", "Back", "Filter"] hash 2
  let k0 := 1
  let navSeg :=
    if requested.navbar then
      let navLinks :=
        if reTest reFeedShort text then ["Home", "Network", "Jobs", "Messages", "Alerts"]
        else pickByHashL altNavSets hash 0
      ([mkNode "Navbar" [("title", Json.str (topic ++ " UI")), ("links", strArr navLinks)]
        none k0], k0 + 1)
    else ([], k0)
  let k1 := navSeg.2
  let sideSeg :=
    if requested.sidebar then
      let sideItems :=
        if reTest reEcommerce text then
          ["Catalog", "Orders", "Customers", "Promotions", "Analytics"]
        else if reTest reFeedShort text then
          ["Feed", "Profile", "Connections", "Groups", "Events"]
        else pickByHashL altSidebarSets hash 3
      ([mkNode "Sidebar" [("title", Json.str (topic ++ " Menu")), ("items", strArr sideItems)]
        none k1], k1 + 1)
    else ([], k1)
  let k2 := sideSeg.2
  let cardSeg :=
    if reTest reAuth text then
      ([mkNode "Card" [("title", Json.str (topic ++ " Authentication"))]
        (some [mkNode "Input" [("label", Json.str "Email"),
                 ("placeholder", Json.str "you@example.com")] none k2,
               mkNode "Input" [("label", Json.str "Password"),
                 ("placeholder", Json.str "Enter password")] none (k2 + 1),
               mkNode "Button" [("label", Json.str
                   (if reTest reSignupWord text then "Create Account" else "Sign In")),
                 ("variant", Json.str "primary")] none (k2 + 2)])
        (k2 + 3)], k2 + 4)
    else if requested.card then
      -- the first Input the source creates is immediately overwritten by the
      -- second; both consume a counter value
      let inputSeg :=
        if requested.input then
          let inputLabel :=
            match phrases.head? with
            | some p0 => "Search " ++ toTitleCase p0
            | none => "Search"
          let inputPlaceholder :=
            if phrases.isEmpty then "Find " ++ toLowerStr topic ++ " items"
            else "Find " ++ String.intercalate " " (phrases.take 2)
          ([mkNode "Input" [("label", Json.str inputLabel),
             ("placeholder", Json.str inputPlaceholder)] none (k2 + 1)], k2 + 2)
        else ([], k2)
      let ki := inputSeg.2
      let btnSeg :=
        if requested.button then
          ([mkNode "Button" [("label", Json.str actionPrimary),
              ("variant", Json.str "primary")] none ki,
            mkNode "Button" [("label", Json.str actionSecondary),
              ("variant", Json.str "secondary")] none (ki + 1)], ki + 2)
        else ([], ki)
      let kids := inputSeg.1 ++ btnSeg.1
      ([mkNode "Card" [("title", Json.str (topic ++ " Controls"))]
        (if kids.isEmpty then none else some kids) btnSeg.2], btnSeg.2 + 1)
    else ([], k2)
  let k3 := cardSeg.2
  let tableSeg :=
    if requested.table then
      let tableRows :=
        if reTest reFeedShort text then
          [["Jane Doe", "Product Designer", "Connect"],
           ["Arjun Rao", "Software Engineer", "Message"],
           ["Nina Kim", "Marketing Lead", "Follow"]]
        else buildTableRowsFromIntent phrases hash
      let tableColumns :=
        match phrases with
        | p0 :: p1 :: _ => [toTitleCase p0, toTitleCase p1, "Action"]
        | _ => ["Name", "Status", "Action"]
      ([mkNode "Card" [("title", Json.str (topic ++ " Table"))]
        (some [mkNode "Table" [("columns", strArr tableColumns),
          ("rows", rowsJson tableRows)] none k3]) (k3 + 1)], k3 + 2)
    else ([], k3)
  let k4 := tableSeg.2
  let chartSeg :=
    if requested.chart then
      ([mkNode "Chart" [("title", Json.str (topic ++ " Metrics")),
        ("data", chartDataJson (buildChartData hash))] none k4], k4 + 1)
    else ([], k4)
  let k5 := chartSeg.2
  let modalSeg :=
    if requested.modal || reTest reSettingsWord text then
      ([mkNode "Modal" [("title", Json.str (topic ++ " Settings")), ("open", Json.bool true)]
        (some [mkNode "Input" [("label", Json.str "Display Name"),
                 ("placeholder", Json.str topic)] none k5,
               mkNode "Button" [("label", Json.str "Save"),
                 ("variant", Json.str "primary")] none (k5 + 1)])
        (k5 + 2)], k5 + 3)
    else ([], k5)
  let k6 := modalSeg.2
  let root := navSeg.1 ++ sideSeg.1 ++ cardSeg.1 ++ tableSeg.1 ++ chartSeg.1 ++ modalSeg.1
  let root' :=
    if root.isEmpty then
      [mkNode "Card" [("title", Json.str (topic ++ " Panel"))]
        (some [mkNode "Button" [("label", Json.str "Continue"),
          ("variant", Json.str "primary")] none k6]) (k6 + 1)]
    else root
  UIPlan.mk mode root' none

/-- The per-node rewrite of `addMinimalMode`
(`{...node, props: {...}}` keeps id and children). -/
def minimalRewriteNode (n : UINode) : UINode :=
  if n.component == "Navbar" then
    UINode.mk n.id n.component
      [("title", Json.str "Minimal UI"), ("links", strArr ["Home", "Settings"])]
      n.children
  else n

/-- `addMinimalMode`: force stack mode and rewrite every Navbar's props. -/
def addMinimalMode (plan : UIPlan) : UIPlan :=
  UIPlan.mk "stack" (plan.root.map minimalRewriteNode) plan.modificationInstructions

/-- The settings modal `mergeModification` appends; `now` is the `Date.now()`
value read for the three ids. -/
def settingsModalNode (now : Nat) : UINode :=
  UINode.mk ("modal-" ++ toString now) "Modal"
    [("title", Json.str "Settings"), ("open", Json.bool true)]
    (some [UINode.mk ("input-" ++ toString now) "Input"
             [("label", Json.str "Theme"), ("placeholder", Json.str "Light or Dark")] none,
           UINode.mk ("save-" ++ toString now) "Button"
             [("label", Json.str "Save"), ("variant", Json.str "primary")] none])

/-- The Chart append of the add/include/insert branch; the `Nat` is the node
factory counter left for the next append (the factory of this branch starts
at 1). -/
def addChartSeg (intent : String) (root : List UINode) : List UINode × Nat :=
  if (inferRequestedComponents intent).chart &&
      !root.any (fun n => n.component == "Chart") then
    (root ++ [mkNode "Chart" [("title", Json.str (inferTopic intent ++ " Metrics")),
      ("data", chartDataJson (buildChartData (hashIntent intent)))] none 1], 2)
  else (root, 1)

/-- The Table append (a Card wrapping a Table); its presence check looks at
top-level components and at immediate children. -/
def addTableSeg (intent : String) (rk : List UINode × Nat) : List UINode × Nat :=
  if (inferRequestedComponents intent).table && !rk.1.any (fun n =>
      n.component == "Table" ||
        (n.children.getD []).any (fun c => c.component == "Table")) then
    (rk.1 ++ [mkNode "Card" [("title", Json.str (inferTopic intent ++ " Table"))]
      (some [mkNode "Table" [("columns", strArr ["Name", "Status", "Action"]),
        ("rows", rowsJson (buildTableRowsFromIntent (extractKeyPhrases intent)
          (hashIntent intent)))] none rk.2]) (rk.2 + 1)], rk.2 + 2)
  else rk

/-- The Input append (a Card wrapping an Input and a Button); its presence
check looks only at immediate children. -/
def addInputSeg (intent : String) (rk : List UINode × Nat) : List UINode :=
  if (inferRequestedComponents intent).input && !rk.1.any (fun n =>
      (n.children.getD []).any (fun c => c.component == "Input")) then
    rk.1 ++ [mkNode "Card" [("title", Json.str (inferTopic intent ++ " Input"))]
      (some [mkNode "Input" [("label", Json.str "Search"),
               ("placeholder", Json.str ("Find " ++ toLowerStr (inferTopic intent) ++ " items"))] none rk.2,
             mkNode "Button" [("label", Json.str "Apply"),
               ("variant", Json.str "primary")] none (rk.2 + 1)]) (rk.2 + 2)]
  else rk.1

/-- The add/include/insert branch of `mergeModification`: each append
re-checks presence against the root list as grown so far. -/
def addComponents (intent : String) (plan : UIPlan) : UIPlan :=
  UIPlan.mk plan.mode
    (addInputSeg intent (addTableSeg intent (addChartSeg intent plan.root)))
    plan.modificationInstructions

/-- `mergeModification` (`structuredClone` is the identity on values). -/
def mergeModification (now : Nat) (intent : String) (priorPlan : UIPlan) : UIPlan :=
  let normalized := toLowerStr intent
  let next1 :=
    if reTest reMinimalShort normalized then addMinimalMode priorPlan else priorPlan
  let next2 :=
    if reTest reSettingsModal normalized then
      if next1.root.any (fun n => n.component == "Modal") then next1
      else UIPlan.mk next1.mode (next1.root ++ [settingsModalNode now])
        next1.modificationInstructions
    else next1
  if reTest reConvert normalized then
    let conv := buildIntentAwarePlan intent
    UIPlan.mk conv.mode conv.root (some ("Converted UI based on request: " ++ intent))
  else
    let next3 := if reTest reAdd normalized then addComponents intent next2 else next2
    UIPlan.mk next3.mode next3.root (some intent)

/-! ## The oracle call and the planner entry point -/

/-- One `fetch` of the oracle: the promise rejects (network/body failure), or
resolves with an HTTP status and the extracted message content. -/
inductive FetchOutcome where
  | reject
  | resp (ok : Bool) (content : Option String)

/-- Everything outside the program the pipeline reads during one request:
credentials, the two oracle calls' outcomes, and the clock/random values. -/
structure OracleEnv where
  hasKey : Bool
  plannerFetch : FetchOutcome
  explainerFetch : FetchOutcome
  now : Nat
  rand : String

/-- `callLLM`: no credentials or a non-OK response degrade to `null`; a
rejecting `fetch` (or response-body read) is NOT caught and propagates. -/
def callLLM (hasKey : Bool) (f : FetchOutcome) : Except Unit (Option String) :=
  if !hasKey then Except.ok none
  else
    match f with
    | .reject => Except.error ()
    | .resp ok content => if !ok then Except.ok none else Except.ok content

structure PlannerInput where
  intent : String
  priorPlan : Option UIPlan
  regenerateFromScratch : Bool

structure PlannerResult where
  plan : UIPlan
  warnings : List String

def runPlanner (env : OracleEnv) (input : PlannerInput) : Except Unit PlannerResult :=
  let filtered := filterPromptInjection input.intent
  let shouldFullRegenerate :=
    input.regenerateFromScratch || reTest reRegenScratch (toLowerStr filtered.clean)
  match callLLM env.hasKey env.plannerFetch with
  | Except.error e => Except.error e
  | Except.ok llmRaw =>
    let fromLLM : Option UIPlan :=
      match llmRaw with
      | some raw =>
        (match jsonParse raw with
         | some parsed => validatePlan parsed
         | none => none)
      | none => none
    let warnings :=
      if filtered.flagged then ["Prompt injection patterns were sanitized"] else []
    match fromLLM with
    | some plan => Except.ok (PlannerResult.mk plan warnings)
    | none =>
      let plan :=
        match input.priorPlan with
        | none => buildIntentAwarePlan filtered.clean
        | some prior =>
          if shouldFullRegenerate then buildIntentAwarePlan filtered.clean
          else mergeModification env.now filtered.clean prior
      Except.ok (PlannerResult.mk plan warnings)

/-! ## Compact `JSON.stringify` (one argument), used for inline props -/

mutual
def renderJsonC : Json → List Char
  | .null => "null".toList
  | .str s => renderStr s
  | .num n => renderInt n
  | .bool b => if b then "true".toList else "false".toList
  | .arr [] => ['[', ']']
  | .arr (e :: es) => '[' :: (renderElemsC (e :: es) ++ [']'])
  | .obj [] => ['\x7b', '\x7d']
  | .obj (f :: fs) => '\x7b' :: (renderFieldsC (f :: fs) ++ ['\x7d'])

def renderElemsC : List Json → List Char
  | [] => []
  | [e] => renderJsonC e
  | e :: e2 :: es => renderJsonC e ++ ',' :: renderElemsC (e2 :: es)

def renderFieldsC : List (String × Json) → List Char
  | [] => []
  | [kv] => renderStr kv.1 ++ ':' :: renderJsonC kv.2
  | kv :: kv2 :: fs => renderStr kv.1 ++ ':' :: renderJsonC kv.2 ++ ',' :: renderFieldsC (kv2 :: fs)
end

/-! ## Code generator (`src/agent/generator.ts`) -/

def indentS (n : Nat) : String := String.mk (List.replicate n ' ')

/-- `<C {...props} />`. -/
def selfCloseTag (depth : Nat) (c : String) (p : List (String × Json)) : String :=
  indentS depth ++ "<" ++ c ++ " \x7b..." ++ String.mk (renderJsonC (Json.obj p)) ++ "\x7d />"

mutual
/-- `renderNode`: children joined by newline; a node whose rendered children
string is empty renders self-closing. -/
def renderNode : UINode → Nat → String
  | .mk _ c p none, depth => selfCloseTag depth c p
  | .mk _ c p (some l), depth =>
    let childrenStr := renderNodeList l (depth + 2)
    if childrenStr.isEmpty then selfCloseTag depth c p
    else
      indentS depth ++ "<" ++ c ++ " \x7b..." ++ String.mk (renderJsonC (Json.obj p)) ++
        "\x7d>" ++ "\n" ++ childrenStr ++ "\n" ++ indentS depth ++ "</" ++ c ++ ">"

def renderNodeList : List UINode → Nat → String
  | [], _ => ""
  | [n], depth => renderNode n depth
  | n :: n2 :: ns, depth => renderNode n depth ++ "\n" ++ renderNodeList (n2 :: ns) depth
end

def layoutClass (mode : String) : String :=
  if mode == "stack" then "space-y-4"
  else if mode == "grid" then "grid grid-cols-1 gap-4 md:grid-cols-2"
  else "grid grid-cols-1 gap-4 lg:grid-cols-[260px_1fr]"

/-- `composeLayout` (after its `trimEnd()`). -/
def composeLayout (nodes : List UINode) (mode : String) : String :=
  "\n    <section className=\"" ++ layoutClass mode ++ "\">\n" ++
    renderNodeList nodes 6 ++ "\n    </section>"

mutual
def collectComponents : UINode → List String
  | .mk _ c _ none => [c]
  | .mk _ c _ (some l) => c :: collectComponentsList l

def collectComponentsList : List UINode → List String
  | [] => []
  | n :: ns => collectComponents n ++ collectComponentsList ns
end

inductive GenError where
  | invalidPlan
  | whitelistViolation
  | codeSafety

structure GeneratorResult where
  code : String
  usedComponents : List String

def replaceBackticks (cs : List Char) : List Char :=
  cs.flatMap (fun c => if c == Char.ofNat 96 then ['\\', Char.ofNat 96] else [c])

/-- The serialized plan embedded in generated code:
`JSON.stringify(plan, null, 2).replace(/`/g, "\\`")` (comment backtick aside). -/
def serializedPlanOf (plan : UIPlan) : String :=
  String.mk (replaceBackticks (renderJson 0 (planToJson plan)))

/-- `Array.prototype.join(", ")` over the import names. -/
def joinSepStr (sep : String) : List String → String
  | [] => ""
  | [s] => s
  | s :: s2 :: ss => s ++ sep ++ joinSepStr sep (s2 :: ss)

def importsLineOf (used : List String) : String :=
  "import \x7b " ++ joinSepStr ", " (dedupeAux []
    (used ++ ["Card", "Button", "Input", "Table", "Modal", "Sidebar", "Navbar", "Chart"])) ++
    " \x7d from \"@/components/ui\";"

def generatedCodeOf (plan : UIPlan) : String :=
  importsLineOf (dedupeAux [] (collectComponentsList plan.root)) ++
    "\n\nconst uiPlanJson = " ++ String.mk [Char.ofNat 96] ++ serializedPlanOf plan ++
    String.mk [Char.ofNat 96] ++ ";\n\nexport default function GeneratedUI() \x7b\n  return (\n    <main className=\"space-y-4\">\n" ++
    composeLayout plan.root plan.mode ++ "\n    </main>\n  );\n\x7d\n"

/-- `runGenerator`: re-validate, enforce the whitelist, emit, re-check. -/
def runGenerator (plan : UIPlan) : Except GenError GeneratorResult :=
  match validatePlan (planToJson plan) with
  | none => Except.error GenError.invalidPlan
  | some _ =>
    let usedComponents := dedupeAux [] (collectComponentsList plan.root)
    let unauthorized := usedComponents.filter (fun c => !ALLOWED_COMPONENTS.contains c)
    if !unauthorized.isEmpty then Except.error GenError.whitelistViolation
    else
      let code := generatedCodeOf plan
      if !validateGeneratedCode code then Except.error GenError.codeSafety
      else Except.ok (GeneratorResult.mk code usedComponents)

/-! ## Explainer (`src/agent/explainer.ts`) -/

structure ExplainerInput where
  intent : String
  plan : UIPlan
  code : String
  isModification : Bool

def runExplainer (env : OracleEnv) (input : ExplainerInput) : Except Unit String :=
  match callLLM env.hasKey env.explainerFetch with
  | Except.error e => Except.error e
  | Except.ok (some llm) => Except.ok llm
  | Except.ok none =>
    let componentSet :=
      String.intercalate ", " (dedupeAux [] (input.plan.root.map UINode.component))
    Except.ok ("Layout mode: " ++ input.plan.mode ++
      " was selected to match the requested information density and hierarchy." ++ "\n" ++
      "Component selection: " ++ componentSet ++
      ". All components come from the fixed deterministic library." ++ "\n" ++
      (if input.isModification then
        "This is an incremental edit. Existing plan structure was preserved and only requested sections were updated."
      else "This was generated as a new baseline screen."))

/-! ## Static analysis (`analyzeGeneratedCode`) -/

structure StaticAnalysisFinding where
  level : String
  code : String
  message : String

structure AnalysisMetrics where
  lineCount : Nat
  jsxCount : Nat
  importCount : Nat

structure StaticAnalysisReport where
  score : Int
  findings : List StaticAnalysisFinding
  metrics : AnalysisMetrics

/-- Matches of `/<[A-Za-z][A-Za-z0-9]*/g` (none can overlap). -/
def countJsxTags : List Char → Nat
  | [] => 0
  | '<' :: c :: cs => (if c.isAlpha then 1 else 0) + countJsxTags (c :: cs)
  | _ :: cs => countJsxTags cs

/-- Tag names captured by `/<([A-Z][A-Za-z0-9]*)\b/g`, in match order. -/
def collectTags : List Char → List String
  | [] => []
  | '<' :: c :: cs =>
    if c.isUpper then String.mk (c :: cs.takeWhile Char.isAlphanum) :: collectTags (c :: cs)
    else collectTags (c :: cs)
  | _ :: cs => collectTags cs

def analyzeGeneratedCode (code : String) (plan : UIPlan) : StaticAnalysisReport :=
  let cs := code.toList
  let lineCount := (splitChar '\n' cs).length
  let jsx := countJsxTags cs
  let importCount := ((splitChar '\n' cs).filter (fun l =>
    (matchToks [RTok.lit "import".toList, RTok.ws] l).isSome)).length
  let f1 :=
    if strIncludes code "dangerouslySetInnerHTML" then
      [StaticAnalysisFinding.mk "error" "dangerous-html"
        "Found forbidden dangerouslySetInnerHTML usage."]
    else []
  let f2 :=
    if strIncludes code "style=\x7b\x7b" then
      [StaticAnalysisFinding.mk "error" "inline-style" "Found forbidden inline style usage."]
    else []
  let f3 :=
    if strIncludes code ("className=\x7b" ++ String.mk [Char.ofNat 96]) then
      [StaticAnalysisFinding.mk "warning" "dynamic-class"
        "Detected dynamic class composition; review deterministic styling constraints."]
    else []
  let usedTags := dedupeAux [] (collectTags cs)
  let illegalTags := usedTags.filter (fun tag =>
    !ALLOWED_COMPONENTS.contains tag && tag != "GeneratedUI")
  let f4 :=
    if !illegalTags.isEmpty then
      [StaticAnalysisFinding.mk "error" "illegal-component"
        ("Detected non-whitelisted JSX components: " ++ String.intercalate ", " illegalTags)]
    else []
  let expected := dedupeAux [] (collectComponentsList plan.root)
  let missing := expected.filter (fun comp => !usedTags.contains comp)
  let f5 :=
    if !missing.isEmpty then
      [StaticAnalysisFinding.mk "warning" "missing-component"
        ("Generated code does not render some planned components: " ++
          String.intercalate ", " missing)]
    else []
  let score : Int := 100 - (if f1.isEmpty then 0 else 50) - (if f2.isEmpty then 0 else 30) -
    (if f3.isEmpty then 0 else 10) - (if f4.isEmpty then 0 else 40) -
    (if f5.isEmpty then 0 else 15)
  let findings := f1 ++ f2 ++ f3 ++ f4 ++ f5
  let findings' :=
    if findings.isEmpty then
      [StaticAnalysisFinding.mk "info" "clean"
        "Static analysis found no safety or policy violations."]
    else findings
  StaticAnalysisReport.mk (max 0 score) findings' (AnalysisMetrics.mk lineCount jsx importCount)

/-! ## Version store (`src/lib/versionStore.ts`) -/

structure VersionSnapshot where
  id : String
  createdAt : String
  intent : String
  action : String
  baseVersionId : Option String
  plan : UIPlan
  code : String
  explanation : String
  analysis : StaticAnalysisReport

def storeGet (store : List VersionSnapshot) (id : String) : Option VersionSnapshot :=
  store.find? (fun v => v.id == id)

def storeLatest (store : List VersionSnapshot) : Option VersionSnapshot :=
  store.getLast?

/-- `add` with the id/timestamp material (`Date.now()`, `Math.random()`
suffix) supplied by the environment. -/
def storeAdd (store : List VersionSnapshot) (snap : VersionSnapshot) :
    List VersionSnapshot :=
  store ++ [snap]

def storeRollback (store : List VersionSnapshot) (id : String) : Option VersionSnapshot :=
  storeGet store id

/-! ## Orchestration (`executePipeline` of the agent route) -/

structure AgentRequestBody where
  intent : Option String
  action : Option String
  baseVersionId : Option String

inductive PipeErr where
  | inputError
  | oracle
  | gen (e : GenError)

structure PipeResponse where
  version : VersionSnapshot
  warnings : List String

/-- The stage chain of `executePipeline`: trim and check the intent, resolve
the working base, run planner → generator → explainer → analysis, and build
the snapshot of this run.  A thrown stage error aborts the chain. -/
def pipelineStages (env : OracleEnv) (body : AgentRequestBody)
    (store : List VersionSnapshot) : Except PipeErr PipeResponse :=
  let intent := jsTrim (body.intent.getD "")
  let action := body.action.getD "generate"
  let baseVersion :=
    match body.baseVersionId with
    | some bid => storeGet store bid
    | none => none
  let latest := storeLatest store
  let workingBase :=
    match baseVersion with
    | some b => some b
    | none => latest
  if intent.isEmpty then Except.error PipeErr.inputError
  else
    match runPlanner env (PlannerInput.mk intent
        (if action == "modify" then workingBase.map (fun b => b.plan) else none)
        (action == "regenerate")) with
    | Except.error _ => Except.error PipeErr.oracle
    | Except.ok planner =>
      match runGenerator planner.plan with
      | Except.error e => Except.error (PipeErr.gen e)
      | Except.ok gen =>
        match runExplainer env (ExplainerInput.mk intent planner.plan gen.code
            (action == "modify" && workingBase.isSome)) with
        | Except.error _ => Except.error PipeErr.oracle
        | Except.ok expl =>
          let analysis := analyzeGeneratedCode gen.code planner.plan
          let snap := VersionSnapshot.mk
            ("v_" ++ toString env.now ++ "_" ++ env.rand) (toString env.now)
            intent action (workingBase.map (fun b => b.id)) planner.plan gen.code
            expl analysis
          Except.ok (PipeResponse.mk snap planner.warnings)

/-- `executePipeline` over an explicit store value: the result, and the
store as left behind.  `versionStore.add` runs only after every stage
succeeded (a throw aborts the request before the append), so the store is
unchanged on every error path. -/
def executePipeline (env : OracleEnv) (body : AgentRequestBody)
    (store : List VersionSnapshot) : Except PipeErr PipeResponse × List VersionSnapshot :=
  match pipelineStages env body store with
  | Except.ok resp => (Except.ok resp, storeAdd store resp.version)
  | Except.error e => (Except.error e, store)

/-! ## Diff engine (`buildLineDiff` of `src/app/page.tsx`) -/

inductive DiffKind where
  | same
  | added
  | removed

structure DiffLine where
  kind : DiffKind
  text : String

def DiffKind.isAdded : DiffKind → Bool
  | .added => true
  | _ => false

def DiffKind.isRemoved : DiffKind → Bool
  | .removed => true
  | _ => false

/-- `dp[i][j]` of the source: the LCS length of the suffixes. -/
def lcsLen : List String → List String → Nat
  | [], _ => 0
  | _ :: _, [] => 0
  | a :: as, b :: bs =>
    if a == b then lcsLen as bs + 1
    else max (lcsLen as (b :: bs)) (lcsLen (a :: as) bs)
termination_by as bs => as.length + bs.length

/-- The greedy backtracking walk (ties kept toward the first sequence),
followed by the two drain loops (removed first, then added). -/
def diffLines : List String → List String → List DiffLine
  | [], bs => bs.map (fun b => DiffLine.mk DiffKind.added b)
  | a :: as, [] => (a :: as).map (fun x => DiffLine.mk DiffKind.removed x)
  | a :: as, b :: bs =>
    if a == b then DiffLine.mk DiffKind.same a :: diffLines as bs
    else if lcsLen as (b :: bs) ≥ lcsLen (a :: as) bs then
      DiffLine.mk DiffKind.removed a :: diffLines as (b :: bs)
    else DiffLine.mk DiffKind.added b :: diffLines (a :: as) bs
termination_by as bs => as.length + bs.length

def buildLineDiff (source target : String) : List DiffLine :=
  diffLines ((splitChar '\n' source.toList).map String.mk)
    ((splitChar '\n' target.toList).map String.mk)

/-- `Array.prototype.join("\n")` over line texts. -/
def joinNl (lines : List String) : String :=
  String.mk (joinChar '\n' (lines.map String.toList))

/-! ## Component counting and presence helpers (for the C5 statements) -/

mutual
def nodeCompCount (c : String) : UINode → Nat
  | .mk _ comp _ none => if comp == c then 1 else 0
  | .mk _ comp _ (some l) => (if comp == c then 1 else 0) + nodesCompCount c l
def nodesCompCount (c : String) : List UINode → Nat
  | [] => 0
  | n :: ns => nodeCompCount c n + nodesCompCount c ns
end

def hasRootComp (c : String) (ns : List UINode) : Bool :=
  ns.any (fun n => n.component == c)

def hasChildComp (c : String) (ns : List UINode) : Bool :=
  ns.any (fun n => (n.children.getD []).any (fun m => m.component == c))

def settingsAppendFires (intent : String) (prior : UIPlan) : Bool :=
  reTest reSettingsModal (toLowerStr intent) &&
    !(prior.root.any (fun n => n.component == "Modal"))

theorem nodesCompCount_append (c : String) (xs ys : List UINode) :
    nodesCompCount c (xs ++ ys) = nodesCompCount c xs + nodesCompCount c ys := by
  induction xs with
  | nil => simp [nodesCompCount]
  | cons n ns ih => simp [nodesCompCount, ih]; omega

theorem nodeCompCount_mk (c i comp : String) (props : List (String × Json))
    (ch : Option (List UINode)) :
    nodeCompCount c (UINode.mk i comp props ch) =
      (if comp == c then 1 else 0) + nodesCompCount c (ch.getD []) := by
  cases ch <;> simp [nodeCompCount, nodesCompCount]

theorem minimalRewriteNode_component (n : UINode) :
    (minimalRewriteNode n).component = n.component := by
  cases n with
  | mk i comp props ch =>
    simp only [minimalRewriteNode, UINode.component, UINode.id, UINode.children]
    by_cases h : comp = "Navbar" <;> simp [h, UINode.component]

theorem minimalRewriteNode_children (n : UINode) :
    (minimalRewriteNode n).children = n.children := by
  cases n with
  | mk i comp props ch =>
    simp only [minimalRewriteNode, UINode.component, UINode.id, UINode.children]
    by_cases h : comp = "Navbar" <;> simp [h, UINode.children]

theorem nodeCompCount_minimalRewrite (c : String) (n : UINode) :
    nodeCompCount c (minimalRewriteNode n) = nodeCompCount c n := by
  cases n with
  | mk i comp props ch =>
    simp only [minimalRewriteNode, UINode.component, UINode.id, UINode.children]
    by_cases h : comp = "Navbar" <;> simp [h, nodeCompCount_mk]

theorem addMinimalMode_count (c : String) (p : UIPlan) :
    nodesCompCount c (addMinimalMode p).root = nodesCompCount c p.root := by
  show nodesCompCount c (p.root.map minimalRewriteNode) = _
  induction p.root with
  | nil => rfl
  | cons n ns ih =>
    simp only [List.map_cons, nodesCompCount, ih, nodeCompCount_minimalRewrite]

theorem addMinimalMode_any (c : String) (p : UIPlan) :
    (addMinimalMode p).root.any (fun n => n.component == c) =
      p.root.any (fun n => n.component == c) := by
  show (p.root.map minimalRewriteNode).any _ = _
  induction p.root with
  | nil => rfl
  | cons n ns ih =>
    simp only [List.map_cons, List.any_cons, ih, minimalRewriteNode_component]

theorem addMinimalMode_anyChild (c : String) (p : UIPlan) :
    (addMinimalMode p).root.any
        (fun n => (n.children.getD []).any (fun m => m.component == c)) =
      p.root.any (fun n => (n.children.getD []).any (fun m => m.component == c)) := by
  show (p.root.map minimalRewriteNode).any _ = _
  induction p.root with
  | nil => rfl
  | cons n ns ih =>
    simp only [List.map_cons, List.any_cons, ih, minimalRewriteNode_children]

theorem any_or_split (ns : List UINode) (f g : UINode → Bool) :
    ns.any (fun n => f n || g n) = (ns.any f || ns.any g) := by
  induction ns with
  | nil => rfl
  | cons n ms ih =>
    simp only [List.any_cons, ih]
    cases f n <;> cases g n <;> simp


/-! ## Shape and counting of the add-branch appends -/

theorem addChartSeg_shape (intent : String) (root : List UINode) :
    (addChartSeg intent root).1 = root ++
      (if (inferRequestedComponents intent).chart &&
          !root.any (fun n => n.component == "Chart") then
        [mkNode "Chart" [("title", Json.str (inferTopic intent ++ " Metrics")),
          ("data", chartDataJson (buildChartData (hashIntent intent)))] none 1]
      else []) := by
  unfold addChartSeg
  split <;> simp

theorem addTableSeg_shape (intent : String) (rk : List UINode × Nat) :
    (addTableSeg intent rk).1 = rk.1 ++
      (if (inferRequestedComponents intent).table && !rk.1.any (fun n =>
          n.component == "Table" ||
            (n.children.getD []).any (fun c => c.component == "Table")) then
        [mkNode "Card" [("title", Json.str (inferTopic intent ++ " Table"))]
          (some [mkNode "Table" [("columns", strArr ["Name", "Status", "Action"]),
            ("rows", rowsJson (buildTableRowsFromIntent (extractKeyPhrases intent)
              (hashIntent intent)))] none rk.2]) (rk.2 + 1)]
      else []) := by
  unfold addTableSeg
  split <;> simp

theorem addInputSeg_shape (intent : String) (rk : List UINode × Nat) :
    addInputSeg intent rk = rk.1 ++
      (if (inferRequestedComponents intent).input && !rk.1.any (fun n =>
          (n.children.getD []).any (fun c => c.component == "Input")) then
        [mkNode "Card" [("title", Json.str (inferTopic intent ++ " Input"))]
          (some [mkNode "Input" [("label", Json.str "Search"),
                   ("placeholder", Json.str ("Find " ++ toLowerStr (inferTopic intent) ++ " items"))] none rk.2,
                 mkNode "Button" [("label", Json.str "Apply"),
                   ("variant", Json.str "primary")] none (rk.2 + 1)]) (rk.2 + 2)]
      else []) := by
  unfold addInputSeg
  split <;> simp


theorem nodesCompCount_append_opt (k : String) (r : List UINode) (c : Bool)
    (xs : List UINode) :
    nodesCompCount k (r ++ if c then xs else []) =
      nodesCompCount k r + (if c then nodesCompCount k xs else 0) := by
  split <;> simp [nodesCompCount_append, nodesCompCount]

theorem any_append_opt (f : UINode → Bool) (r : List UINode) (c : Bool)
    (xs : List UINode) :
    (r ++ if c then xs else []).any f = (r.any f || (if c then xs.any f else false)) := by
  split <;> simp

theorem addChain_chart_count (intent : String) (r : List UINode) :
    nodesCompCount "Chart" (addInputSeg intent (addTableSeg intent (addChartSeg intent r))) =
      nodesCompCount "Chart" r +
        (if (inferRequestedComponents intent).chart &&
            !r.any (fun n => n.component == "Chart") then 1 else 0) := by
  rw [addInputSeg_shape, nodesCompCount_append_opt, addTableSeg_shape,
    nodesCompCount_append_opt, addChartSeg_shape, nodesCompCount_append_opt]
  simp [nodesCompCount, nodeCompCount_mk, mkNode, UINode.component, UINode.children,
    any_append_opt]

theorem addChain_table_count (intent : String) (r : List UINode) :
    nodesCompCount "Table" (addInputSeg intent (addTableSeg intent (addChartSeg intent r))) =
      nodesCompCount "Table" r +
        (if (inferRequestedComponents intent).table && !r.any (fun n =>
            n.component == "Table" ||
              (n.children.getD []).any (fun c => c.component == "Table")) then 1 else 0) := by
  rw [addInputSeg_shape, nodesCompCount_append_opt, addTableSeg_shape,
    nodesCompCount_append_opt, addChartSeg_shape, nodesCompCount_append_opt]
  simp only [any_append_opt, List.any_cons, List.any_nil, mkNode, UINode.component,
    UINode.children, Option.getD_some, Option.getD_none, Bool.or_false, Bool.false_or,
    ite_self]
  simp [nodesCompCount, nodeCompCount_mk]

theorem addChain_input_count (intent : String) (r : List UINode) :
    nodesCompCount "Input" (addInputSeg intent (addTableSeg intent (addChartSeg intent r))) =
      nodesCompCount "Input" r +
        (if (inferRequestedComponents intent).input && !r.any (fun n =>
            (n.children.getD []).any (fun c => c.component == "Input")) then 1 else 0) := by
  rw [addInputSeg_shape, nodesCompCount_append_opt, addTableSeg_shape,
    nodesCompCount_append_opt, addChartSeg_shape, nodesCompCount_append_opt]
  simp only [any_append_opt, List.any_cons, List.any_nil, mkNode, UINode.component,
    UINode.children, Option.getD_some, Option.getD_none, Bool.or_false, Bool.false_or,
    ite_self]
  simp [nodesCompCount, nodeCompCount_mk]


/-! # Theorems -/

/-! ## C1 — determinism of the full-synthesis path -/

/-- C1: with no oracle credentials and no prior plan, `runPlanner` reaches
the deterministic full-synthesis path and its result is the pure function
`buildIntentAwarePlan` of the cleaned intent; two calls with the identical
intent therefore return structurally equal plans. -/
theorem C1_full_synthesis_deterministic (env : OracleEnv) (intent : String)
    (h : env.hasKey = false) :
    runPlanner env (PlannerInput.mk intent none false) =
        Except.ok (PlannerResult.mk
          (buildIntentAwarePlan (filterPromptInjection intent).clean)
          (if (filterPromptInjection intent).flagged then
            ["Prompt injection patterns were sanitized"] else [])) ∧
      runPlanner env (PlannerInput.mk intent none false) =
        runPlanner env (PlannerInput.mk intent none false) := by
  refine ⟨?_, rfl⟩
  simp [runPlanner, callLLM, h]

def envC1 : OracleEnv := OracleEnv.mk false FetchOutcome.reject FetchOutcome.reject 0 "r"

theorem C1_full_synthesis_deterministic_witness :
    envC1.hasKey = false ∧
      (runPlanner envC1 (PlannerInput.mk "Create a login page" none false) =
          Except.ok (PlannerResult.mk
            (buildIntentAwarePlan (filterPromptInjection "Create a login page").clean)
            (if (filterPromptInjection "Create a login page").flagged then
              ["Prompt injection patterns were sanitized"] else [])) ∧
        runPlanner envC1 (PlannerInput.mk "Create a login page" none false) =
          runPlanner envC1 (PlannerInput.mk "Create a login page" none false)) :=
  ⟨rfl, C1_full_synthesis_deterministic envC1 "Create a login page" rfl⟩

/-! ## C3 — a rejecting oracle transport call throws into the pipeline

`callLLM` returns `null` when credentials are absent or the HTTP status is
not OK, and the planner catches JSON/validation failures of the oracle
text; but a rejecting `fetch` (transport failure) is wrapped in no
`try`/`catch` anywhere between `callLLM` and the route handler, so it
aborts the whole request. -/

/-- C3: at the concrete failing input (credentials present, transport call
rejecting), `runPlanner` propagates the rejection as an error instead of
falling through to the deterministic planner, and the pipeline turns the
request into a failure — contradicting the spec's "never throw into the
pipeline". -/
theorem C3_transport_rejection_propagates :
    runPlanner (OracleEnv.mk true FetchOutcome.reject FetchOutcome.reject 0 "r")
        (PlannerInput.mk "Create a login page" none false) = Except.error () ∧
      (executePipeline (OracleEnv.mk true FetchOutcome.reject FetchOutcome.reject 0 "r")
        (AgentRequestBody.mk (some "Create a login page") none none) []).1 =
        Except.error PipeErr.oracle :=
  ⟨rfl, rfl⟩

/-! ## C4 — no snapshot is appended for a failing request -/

/-- C4: whenever `executePipeline` ends in an error (input error, oracle
rejection, or any generator validation/whitelist/safety error), the version
store it leaves behind is exactly the store it started from: no snapshot is
appended for that request. -/
theorem C4_no_snapshot_on_error (env : OracleEnv) (body : AgentRequestBody)
    (store : List VersionSnapshot) (e : PipeErr)
    (h : (executePipeline env body store).1 = Except.error e) :
    (executePipeline env body store).2 = store := by
  unfold executePipeline at h ⊢
  cases hp : pipelineStages env body store <;> simp [hp] at h ⊢

theorem C4_no_snapshot_on_error_witness :
    (executePipeline envC1 (AgentRequestBody.mk (some "") none none) []).1 =
        Except.error PipeErr.inputError ∧
      (executePipeline envC1 (AgentRequestBody.mk (some "") none none) []).2 = [] :=
  ⟨rfl, C4_no_snapshot_on_error envC1 (AgentRequestBody.mk (some "") none none) []
    PipeErr.inputError rfl⟩

/-! ## C5 — presence checks of the add/include/insert path -/

theorem addMinimalMode_any_generic (f : UINode → Bool)
    (hf : ∀ n, f (minimalRewriteNode n) = f n) (p : UIPlan) :
    (addMinimalMode p).root.any f = p.root.any f := by
  show (p.root.map minimalRewriteNode).any f = _
  induction p.root with
  | nil => rfl
  | cons n ns ih => simp only [List.map_cons, List.any_cons, ih, hf]

/-- C5 (amended): on the add/include/insert path (convert not firing), a
Chart is appended only when Chart is requested and no TOP-LEVEL root node is
a Chart; a Table only when none is present at top level or as an immediate
child; an Input only when no immediate child of a root node is an Input.
That last check runs after the settings step, so a settings modal appended
by the same intent also counts as an Input-bearing child: the final conjunct
shows that with Input requested and no prior child Input, a firing settings
append leaves the Input count at prior + 1 (the modal's own Input), i.e. it
blocks the Input append. -/
theorem C5_add_presence_checks (now : Nat) (intent : String) (prior : UIPlan)
    (hAdd : reTest reAdd (toLowerStr intent) = true)
    (hConv : reTest reConvert (toLowerStr intent) = false) :
    (((inferRequestedComponents intent).chart = false ∨
        hasRootComp "Chart" prior.root = true) →
      nodesCompCount "Chart" (mergeModification now intent prior).root =
        nodesCompCount "Chart" prior.root) ∧
    ((inferRequestedComponents intent).chart = true →
      hasRootComp "Chart" prior.root = false →
      nodesCompCount "Chart" (mergeModification now intent prior).root =
        nodesCompCount "Chart" prior.root + 1) ∧
    (((inferRequestedComponents intent).table = false ∨
        hasRootComp "Table" prior.root = true ∨ hasChildComp "Table" prior.root = true) →
      nodesCompCount "Table" (mergeModification now intent prior).root =
        nodesCompCount "Table" prior.root) ∧
    ((inferRequestedComponents intent).table = true →
      hasRootComp "Table" prior.root = false → hasChildComp "Table" prior.root = false →
      nodesCompCount "Table" (mergeModification now intent prior).root =
        nodesCompCount "Table" prior.root + 1) ∧
    (((inferRequestedComponents intent).input = false ∨
        hasChildComp "Input" prior.root = true) →
      nodesCompCount "Input" (mergeModification now intent prior).root =
        nodesCompCount "Input" prior.root +
          (if settingsAppendFires intent prior then 1 else 0)) ∧
    ((inferRequestedComponents intent).input = true →
      hasChildComp "Input" prior.root = false →
      settingsAppendFires intent prior = false →
      nodesCompCount "Input" (mergeModification now intent prior).root =
        nodesCompCount "Input" prior.root + 1) ∧
    ((inferRequestedComponents intent).input = true →
      hasChildComp "Input" prior.root = false →
      settingsAppendFires intent prior = true →
      nodesCompCount "Input" (mergeModification now intent prior).root =
        nodesCompCount "Input" prior.root + 1) := by
  have hc1 : ∀ c, nodesCompCount c
      (if reTest reMinimalShort (toLowerStr intent) then addMinimalMode prior else prior).root =
      nodesCompCount c prior.root := by
    intro c; split
    · exact addMinimalMode_count c prior
    · rfl
  have hg1 : ∀ (f : UINode → Bool), (∀ n, f (minimalRewriteNode n) = f n) →
      (if reTest reMinimalShort (toLowerStr intent) then addMinimalMode prior
        else prior).root.any f = prior.root.any f := by
    intro f hf; split
    · exact addMinimalMode_any_generic f hf prior
    · rfl
  set n1 : UIPlan := if reTest reMinimalShort (toLowerStr intent) then addMinimalMode prior
    else prior with hn1
  set n2root : List UINode :=
    if reTest reSettingsModal (toLowerStr intent) then
      (if n1.root.any (fun n => n.component == "Modal") then n1.root
       else n1.root ++ [settingsModalNode now])
    else n1.root with hn2
  have hres : (mergeModification now intent prior).root =
      addInputSeg intent (addTableSeg intent (addChartSeg intent n2root)) := by
    rw [hn2, hn1]
    unfold mergeModification addComponents
    simp only [hConv, Bool.false_eq_true, if_false, hAdd, if_true]
    by_cases hs : reTest reSettingsModal (toLowerStr intent) <;>
      by_cases hm : (if reTest reMinimalShort (toLowerStr intent) then addMinimalMode prior
          else prior).root.any (fun n => n.component == "Modal") = true <;>
      simp [hs, hm]
  -- the modal-presence check of the settings step, at the prior level
  have hModalAny : (n1.root.any (fun n => n.component == "Modal")) =
      prior.root.any (fun n => n.component == "Modal") :=
    hg1 _ (fun n => by simp only [minimalRewriteNode_component])
  -- counts at the n2root level
  have hn2count : ∀ c, nodesCompCount c n2root = nodesCompCount c prior.root +
      (if settingsAppendFires intent prior then nodeCompCount c (settingsModalNode now) else 0) := by
    intro c
    rw [hn2]
    unfold settingsAppendFires
    by_cases hs : reTest reSettingsModal (toLowerStr intent) = true
    · rw [if_pos hs]
      by_cases hm : (n1.root.any (fun n => n.component == "Modal")) = true
      · rw [if_pos hm, hc1]
        rw [hModalAny] at hm
        simp [hs, hm]
      · rw [if_neg hm, nodesCompCount_append, hc1]
        rw [hModalAny] at hm
        simp only [Bool.not_eq_true] at hm
        simp [hs, hm, nodesCompCount]
    · rw [if_neg hs]
      simp only [Bool.not_eq_true] at hs
      rw [hc1]
      simp [hs]
  -- generic presence transfer for checks the settings modal does not satisfy
  have hn2any : ∀ (f : UINode → Bool), (∀ n, f (minimalRewriteNode n) = f n) →
      f (settingsModalNode now) = false → n2root.any f = prior.root.any f := by
    intro f hf hmod
    rw [hn2]
    by_cases hs : reTest reSettingsModal (toLowerStr intent) = true
    · rw [if_pos hs]
      by_cases hm : (n1.root.any (fun n => n.component == "Modal")) = true
      · rw [if_pos hm]; exact hg1 f hf
      · rw [if_neg hm, List.any_append]
        simp only [List.any_cons, List.any_nil, hmod, Bool.or_false]
        exact hg1 f hf
    · rw [if_neg hs]; exact hg1 f hf
  -- presence transfer for the immediate-child Input check (the modal has one)
  have hn2anyInput : n2root.any (fun n => (n.children.getD []).any
        (fun c => c.component == "Input")) =
      (prior.root.any (fun n => (n.children.getD []).any (fun c => c.component == "Input"))
        || settingsAppendFires intent prior) := by
    rw [hn2]
    unfold settingsAppendFires
    have hfpres : ∀ n, ((fun n : UINode => (n.children.getD []).any
        (fun c => c.component == "Input")) (minimalRewriteNode n)) =
        (fun n : UINode => (n.children.getD []).any (fun c => c.component == "Input")) n := by
      intro n
      simp only [minimalRewriteNode_children]
    by_cases hs : reTest reSettingsModal (toLowerStr intent) = true
    · rw [if_pos hs]
      by_cases hm : (n1.root.any (fun n => n.component == "Modal")) = true
      · rw [if_pos hm, hg1 _ hfpres]
        rw [hModalAny] at hm
        simp [hs, hm]
      · rw [if_neg hm, List.any_append, hg1 _ hfpres]
        rw [hModalAny] at hm
        simp only [Bool.not_eq_true] at hm
        have hone : ([settingsModalNode now].any (fun n => (n.children.getD []).any
            (fun c => c.component == "Input"))) = true := by
          simp [settingsModalNode, UINode.children, UINode.component]
        rw [hone, hs, hm]
        simp
    · rw [if_neg hs]
      simp only [Bool.not_eq_true] at hs
      rw [hg1 _ hfpres]
      simp [hs]
  -- per-component values on the settings modal
  have hmC : nodeCompCount "Chart" (settingsModalNode now) = 0 := by
    simp [settingsModalNode, nodeCompCount_mk, nodesCompCount]
  have hmT : nodeCompCount "Table" (settingsModalNode now) = 0 := by
    simp [settingsModalNode, nodeCompCount_mk, nodesCompCount]
  have hmI : nodeCompCount "Input" (settingsModalNode now) = 1 := by
    simp [settingsModalNode, nodeCompCount_mk, nodesCompCount]
  have hanyChart : n2root.any (fun n => n.component == "Chart") =
      prior.root.any (fun n => n.component == "Chart") := by
    refine hn2any _ (fun n => ?_) ?_
    · show ((minimalRewriteNode n).component == "Chart") = _
      rw [minimalRewriteNode_component]
    · simp [settingsModalNode, UINode.component]
  have hanyTable : n2root.any (fun n => n.component == "Table" ||
        (n.children.getD []).any (fun c => c.component == "Table")) =
      prior.root.any (fun n => n.component == "Table" ||
        (n.children.getD []).any (fun c => c.component == "Table")) := by
    refine hn2any _ (fun n => ?_) ?_
    · show ((minimalRewriteNode n).component == "Table" ||
          ((minimalRewriteNode n).children.getD []).any (fun c => c.component == "Table")) = _
      rw [minimalRewriteNode_component, minimalRewriteNode_children]
    · simp [settingsModalNode, UINode.component, UINode.children]
  refine ⟨?_, ?_, ?_, ?_, ?_, ?_, ?_⟩
  · rintro (h | h)
    · rw [hres, addChain_chart_count, hanyChart, hn2count, hmC, h]
      simp
    · rw [hres, addChain_chart_count, hanyChart, hn2count, hmC,
        show prior.root.any (fun n => n.component == "Chart") = true from h]
      simp
  · intro h1 h2
    rw [hres, addChain_chart_count, hanyChart, hn2count, hmC,
      show prior.root.any (fun n => n.component == "Chart") = false from h2, h1]
    simp
  · rintro (h | h | h)
    · rw [hres, addChain_table_count, hanyTable, hn2count, hmT, h]
      simp
    · rw [hres, addChain_table_count, hanyTable, hn2count, hmT]
      rw [show prior.root.any (fun n => n.component == "Table" ||
        (n.children.getD []).any (fun c => c.component == "Table")) = true from ?_]
      · simp
      · rw [any_or_split]
        rw [show prior.root.any (fun n => n.component == "Table") = true from h]
        simp
    · rw [hres, addChain_table_count, hanyTable, hn2count, hmT]
      rw [show prior.root.any (fun n => n.component == "Table" ||
        (n.children.getD []).any (fun c => c.component == "Table")) = true from ?_]
      · simp
      · rw [any_or_split]
        rw [show prior.root.any (fun n => (n.children.getD []).any
          (fun c => c.component == "Table")) = true from h]
        simp
  · intro h1 h2 h3
    rw [hres, addChain_table_count, hanyTable, hn2count, hmT]
    rw [show prior.root.any (fun n => n.component == "Table" ||
      (n.children.getD []).any (fun c => c.component == "Table")) = false from ?_]
    · rw [h1]; simp
    · rw [any_or_split]
      rw [show prior.root.any (fun n => n.component == "Table") = false from h2,
        show prior.root.any (fun n => (n.children.getD []).any
          (fun c => c.component == "Table")) = false from h3]
      rfl
  · rintro (h | h)
    · rw [hres, addChain_input_count, hn2anyInput, hn2count, hmI, h]
      simp
    · rw [hres, addChain_input_count, hn2anyInput, hn2count, hmI,
        show prior.root.any (fun n => (n.children.getD []).any
          (fun c => c.component == "Input")) = true from h]
      simp
  · intro h1 h2 h3
    rw [hres, addChain_input_count, hn2anyInput, hn2count, hmI,
      show prior.root.any (fun n => (n.children.getD []).any
        (fun c => c.component == "Input")) = false from h2, h1, h3]
    simp
  · intro h1 h2 h3
    rw [hres, addChain_input_count, hn2anyInput, hn2count, hmI,
      show prior.root.any (fun n => (n.children.getD []).any
        (fun c => c.component == "Input")) = false from h2, h3]
    simp


def priorWithChildChart : UIPlan :=
  UIPlan.mk "stack"
    [UINode.mk "card-1" "Card" [("title", Json.str "Dash")]
      (some [UINode.mk "chart-1" "Chart"
        [("title", Json.str "T"), ("data", Json.arr [])] none])] none

/-- C5 (counterexample): a validated prior plan carrying a Chart as an
immediate child of a Card, and the add-phrased intent `"add a chart"`: the
kind is already present in the tree by the claim's check (top level and
immediate children), yet the incremental path appends a second Chart,
because the source checks only top-level nodes for Chart. -/
theorem C5_child_chart_still_appended :
    reTest reAdd (toLowerStr "add a chart") = true ∧
    reTest reConvert (toLowerStr "add a chart") = false ∧
    (inferRequestedComponents "add a chart").chart = true ∧
    (validatePlan (planToJson priorWithChildChart)).isSome = true ∧
    hasChildComp "Chart" priorWithChildChart.root = true ∧
    hasRootComp "Chart" priorWithChildChart.root = false ∧
    nodesCompCount "Chart" (mergeModification 0 "add a chart" priorWithChildChart).root =
      nodesCompCount "Chart" priorWithChildChart.root + 1 :=
  ⟨rfl, rfl, rfl, rfl, rfl, rfl, rfl⟩


theorem C5_add_presence_checks_witness :
    reTest reAdd (toLowerStr "add a settings modal with an input") = true ∧
    reTest reConvert (toLowerStr "add a settings modal with an input") = false ∧
    (inferRequestedComponents "add a settings modal with an input").input = true ∧
    hasChildComp "Input" priorWithChildChart.root = false ∧
    settingsAppendFires "add a settings modal with an input" priorWithChildChart = true ∧
    ((((inferRequestedComponents "add a settings modal with an input").chart = false ∨
        hasRootComp "Chart" priorWithChildChart.root = true) →
      nodesCompCount "Chart"
          (mergeModification 0 "add a settings modal with an input" priorWithChildChart).root =
        nodesCompCount "Chart" priorWithChildChart.root) ∧
    ((inferRequestedComponents "add a settings modal with an input").chart = true →
      hasRootComp "Chart" priorWithChildChart.root = false →
      nodesCompCount "Chart"
          (mergeModification 0 "add a settings modal with an input" priorWithChildChart).root =
        nodesCompCount "Chart" priorWithChildChart.root + 1) ∧
    (((inferRequestedComponents "add a settings modal with an input").table = false ∨
        hasRootComp "Table" priorWithChildChart.root = true ∨
        hasChildComp "Table" priorWithChildChart.root = true) →
      nodesCompCount "Table"
          (mergeModification 0 "add a settings modal with an input" priorWithChildChart).root =
        nodesCompCount "Table" priorWithChildChart.root) ∧
    ((inferRequestedComponents "add a settings modal with an input").table = true →
      hasRootComp "Table" priorWithChildChart.root = false →
      hasChildComp "Table" priorWithChildChart.root = false →
      nodesCompCount "Table"
          (mergeModification 0 "add a settings modal with an input" priorWithChildChart).root =
        nodesCompCount "Table" priorWithChildChart.root + 1) ∧
    (((inferRequestedComponents "add a settings modal with an input").input = false ∨
        hasChildComp "Input" priorWithChildChart.root = true) →
      nodesCompCount "Input"
          (mergeModification 0 "add a settings modal with an input" priorWithChildChart).root =
        nodesCompCount "Input" priorWithChildChart.root +
          (if settingsAppendFires "add a settings modal with an input" priorWithChildChart
            then 1 else 0)) ∧
    ((inferRequestedComponents "add a settings modal with an input").input = true →
      hasChildComp "Input" priorWithChildChart.root = false →
      settingsAppendFires "add a settings modal with an input" priorWithChildChart = false →
      nodesCompCount "Input"
          (mergeModification 0 "add a settings modal with an input" priorWithChildChart).root =
        nodesCompCount "Input" priorWithChildChart.root + 1) ∧
    ((inferRequestedComponents "add a settings modal with an input").input = true →
      hasChildComp "Input" priorWithChildChart.root = false →
      settingsAppendFires "add a settings modal with an input" priorWithChildChart = true →
      nodesCompCount "Input"
          (mergeModification 0 "add a settings modal with an input" priorWithChildChart).root =
        nodesCompCount "Input" priorWithChildChart.root + 1)) :=
  ⟨rfl, rfl, rfl, rfl, rfl,
    C5_add_presence_checks 0 "add a settings modal with an input" priorWithChildChart rfl rfl⟩

/-! ## C2 — the whitelist-violation branch is unreachable after validation -/

theorem dedupeAux_subset (x : String) : ∀ (seen xs : List String),
    x ∈ dedupeAux seen xs → x ∈ xs := by
  intro seen xs
  induction xs generalizing seen with
  | nil => simp [dedupeAux]
  | cons y ys ih =>
    intro h
    unfold dedupeAux at h
    split at h
    · exact List.mem_cons_of_mem y (ih _ h)
    · rcases List.mem_cons.mp h with h1 | h2
      · exact h1 ▸ List.mem_cons_self y ys
      · exact List.mem_cons_of_mem y (ih _ h2)

/-- Every component of a node that survives the zod schema phase is in the
whitelist enumeration (`z.enum(ALLOWED_COMPONENTS)`). -/
theorem decode_components_allowed : ∀ fuel,
    (∀ j m, decodeNode fuel j = some m →
      ∀ c ∈ collectComponents m, ALLOWED_COMPONENTS.contains c = true) ∧
    (∀ js ms, decodeNodes fuel js = some ms →
      ∀ c ∈ collectComponentsList ms, ALLOWED_COMPONENTS.contains c = true) := by
  intro fuel
  induction fuel with
  | zero =>
    constructor
    · intro j m h; simp [decodeNode] at h
    · intro js ms h; simp [decodeNodes] at h
  | succ fuel ih =>
    constructor
    · intro j m h
      cases j with
      | obj fs =>
        unfold decodeNode at h
        split at h
        · rename_i i c props hmatch
          split at h
          · rename_i hcond
            split at h
            · cases h
              intro x hx
              simp only [collectComponents] at hx
              rcases List.mem_singleton.mp hx with rfl
              exact (by simp only [Bool.and_eq_true] at hcond; exact hcond.2)
            · rename_i es hch
              cases hd : decodeNodes fuel es with
              | none => rw [hd] at h; simp at h
              | some ns =>
                rw [hd] at h
                simp only [Option.map_some'] at h
                cases h
                intro x hx
                simp only [collectComponents] at hx
                rcases List.mem_cons.mp hx with rfl | hx2
                · exact (by simp only [Bool.and_eq_true] at hcond; exact hcond.2)
                · exact ih.2 es ns hd x hx2
            · simp at h
          · simp at h
        · simp at h
      | null => simp [decodeNode] at h
      | str s => simp [decodeNode] at h
      | num n => simp [decodeNode] at h
      | bool b => simp [decodeNode] at h
      | arr es => simp [decodeNode] at h
    · intro js ms h
      cases js with
      | nil =>
        unfold decodeNodes at h
        cases h
        intro c hc
        simp [collectComponentsList] at hc
      | cons j js2 =>
        unfold decodeNodes at h
        cases h1 : decodeNode fuel j with
        | none => rw [h1] at h; simp at h
        | some n =>
          cases h2 : decodeNodes fuel js2 with
          | none => rw [h1, h2] at h; simp at h
          | some ns =>
            rw [h1, h2] at h
            cases h
            intro c hc
            simp only [collectComponentsList] at hc
            rcases List.mem_append.mp hc with hc1 | hc2
            · exact ih.1 j n h1 c hc1
            · exact ih.2 js2 ns h2 c hc2


/-- The zod schema phase, applied to the JSON value of a typed plan's node,
returns that node unchanged whenever it succeeds. -/
theorem decode_nodeToJson : ∀ fuel,
    (∀ n m, decodeNode fuel (nodeToJson n) = some m → m = n) ∧
    (∀ ns ms, decodeNodes fuel (nodesToJson ns) = some ms → ms = ns) := by
  intro fuel
  induction fuel with
  | zero =>
    constructor
    · intro n m h; simp [decodeNode] at h
    · intro ns ms h
      cases ns with
      | nil => simp [decodeNodes] at h
      | cons x xs => simp [decodeNodes] at h
  | succ fuel ih =>
    constructor
    · intro n m h
      cases n with
      | mk i c p ch =>
        cases ch with
        | none =>
          simp only [nodeToJson, List.append_nil] at h
          unfold decodeNode at h
          simp [getProp, List.find?] at h
          exact h.2.symm
        | some l =>
          simp only [nodeToJson] at h
          unfold decodeNode at h
          simp [getProp, List.find?] at h
          obtain ⟨-, ns, hd, hm⟩ := h
          rw [← hm, ih.2 l ns hd]
    · intro ns ms h
      cases ns with
      | nil =>
        unfold nodesToJson decodeNodes at h
        cases h; rfl
      | cons x xs =>
        unfold nodesToJson decodeNodes at h
        cases h1 : decodeNode fuel (nodeToJson x) with
        | none => rw [h1] at h; simp at h
        | some n =>
          cases h2 : decodeNodes fuel (nodesToJson xs) with
          | none => rw [h1, h2] at h; simp at h
          | some ms2 =>
            rw [h1, h2] at h
            cases h
            rw [ih.1 x n h1, ih.2 xs ms2 h2]


/-- zod parse of a typed plan's JSON value: on success it returns the plan
unchanged, and every component in the tree is whitelisted. -/
theorem decodePlan_planToJson_inv (p q : UIPlan) (h : decodePlan (planToJson p) = some q) :
    q = p ∧ ∀ c ∈ collectComponentsList p.root, ALLOWED_COMPONENTS.contains c = true := by
  cases p with
  | mk mode root mi =>
    cases hd : decodeNodes (jsonListWeight (nodesToJson root) + 1) (nodesToJson root) with
    | none =>
      cases mi with
      | none =>
        simp only [planToJson, List.append_nil] at h
        unfold decodePlan at h
        simp [getProp, List.find?, hd] at h
      | some s =>
        simp only [planToJson] at h
        unfold decodePlan at h
        simp [getProp, List.find?, hd] at h
    | some ns =>
      have hns := (decode_nodeToJson _).2 _ _ hd
      subst hns
      cases mi with
      | none =>
        simp only [planToJson, List.append_nil] at h
        unfold decodePlan at h
        simp [getProp, List.find?, hd] at h
        refine ⟨h.2.symm, ?_⟩
        intro c hc
        exact (decode_components_allowed _).2 _ _ hd c hc
      | some s =>
        simp only [planToJson] at h
        unfold decodePlan at h
        simp [getProp, List.find?, hd] at h
        refine ⟨h.2.symm, ?_⟩
        intro c hc
        exact (decode_components_allowed _).2 _ _ hd c hc

/-- C2: a plan that passed `validatePlan` never trips the generator's
whitelist check: the `Component whitelist violation` branch is unreachable
after validation. -/
theorem C2_whitelist_unreachable (p q : UIPlan)
    (hv : validatePlan (planToJson p) = some q) :
    runGenerator p ≠ Except.error GenError.whitelistViolation := by
  intro hcontra
  have hall : ∀ c ∈ collectComponentsList p.root, ALLOWED_COMPONENTS.contains c = true := by
    unfold validatePlan at hv
    cases hd : decodePlan (planToJson p) with
    | none => rw [hd] at hv; simp at hv
    | some plan2 => exact (decodePlan_planToJson_inv p plan2 hd).2
  unfold runGenerator at hcontra
  rw [hv] at hcontra
  have hempty : (dedupeAux [] (collectComponentsList p.root)).filter
      (fun c => !ALLOWED_COMPONENTS.contains c) = [] := by
    rw [List.filter_eq_nil_iff]
    intro a ha
    have hin := hall a (dedupeAux_subset a [] _ ha)
    exact (by simpa using hin)
  simp only [hempty] at hcontra
  simp at hcontra
  split at hcontra <;> simp_all


/-- A small plan `validatePlan` accepts, used as concrete witness input. -/
def cardPlan : UIPlan :=
  UIPlan.mk "stack" [UINode.mk "c1" "Card" [("title", Json.str "Hello")] none] none

theorem C2_whitelist_unreachable_witness :
    validatePlan (planToJson cardPlan) = some cardPlan ∧
      runGenerator cardPlan ≠ Except.error GenError.whitelistViolation :=
  ⟨rfl, C2_whitelist_unreachable cardPlan cardPlan rfl⟩


/-! ## C7 — `modificationInstructions` on the incremental path -/

/-- C7 (counterexample): on the convert branch the recorded text is the
prefixed string `"Converted UI based on request: " + intent`, not the
literal triggering intent. -/
theorem C7_convert_branch_not_literal :
    (mergeModification 0 "convert to a blog" (UIPlan.mk "stack"
        [UINode.mk "c1" "Card" [("title", Json.str "Hello")] none] none)).modificationInstructions
      = some "Converted UI based on request: convert to a blog" ∧
    ("Converted UI based on request: convert to a blog" = "convert to a blog" → False) :=
  ⟨rfl, by decide⟩

/-- C7 (amended): `mergeModification` always records the literal triggering
intent in `modificationInstructions`, except on the convert branch, which
records `"Converted UI based on request: "` followed by the intent. -/
theorem C7_modification_instructions (now : Nat) (intent : String) (prior : UIPlan) :
    (mergeModification now intent prior).modificationInstructions =
      some (if reTest reConvert (toLowerStr intent) then
        "Converted UI based on request: " ++ intent else intent) := by
  unfold mergeModification
  cases h : reTest reConvert (toLowerStr intent) <;> simp [h]

/-! ## C8 — the dashboard-then-settings-modal scenario -/

/-- C8: full synthesis from the dashboard intent yields mode `split` with
root Navbar, Sidebar, Card, Chart; the incremental modification
`"Add a settings modal and make the layout minimal"` then yields mode
`stack`, the Navbar rewritten to links `["Home", "Settings"]`, and exactly
one Modal node appended at the end (for every `Date.now()` value the ids
may read). -/
theorem C8_dashboard_settings_scenario (now : Nat) :
    (buildIntentAwarePlan "Create a dashboard with navbar, sidebar, card and chart").mode
        = "split" ∧
    (buildIntentAwarePlan "Create a dashboard with navbar, sidebar, card and chart").root.map
        UINode.component = ["Navbar", "Sidebar", "Card", "Chart"] ∧
    (mergeModification now "Add a settings modal and make the layout minimal"
        (buildIntentAwarePlan "Create a dashboard with navbar, sidebar, card and chart")).mode
        = "stack" ∧
    ((mergeModification now "Add a settings modal and make the layout minimal"
        (buildIntentAwarePlan "Create a dashboard with navbar, sidebar, card and chart")).root.filter
        (fun n => n.component == "Navbar")).map UINode.props =
      [[("title", Json.str "Minimal UI"), ("links", strArr ["Home", "Settings"])]] ∧
    (mergeModification now "Add a settings modal and make the layout minimal"
        (buildIntentAwarePlan "Create a dashboard with navbar, sidebar, card and chart")).root.map
        UINode.component = ["Navbar", "Sidebar", "Card", "Chart", "Modal"] :=
  ⟨rfl, rfl, rfl, rfl, rfl⟩


/-! ## C9: diff engine round trip -/

theorem splitChar_ne_nil (sep : Char) (cs : List Char) : splitChar sep cs ≠ [] := by
  cases cs with
  | nil => simp [splitChar]
  | cons c cs =>
    unfold splitChar
    split
    · simp
    · split <;> simp

theorem joinChar_splitChar (sep : Char) (cs : List Char) :
    joinChar sep (splitChar sep cs) = cs := by
  induction cs with
  | nil => rfl
  | cons c cs ih =>
    unfold splitChar
    cases h : splitChar sep cs with
    | nil => exact absurd h (splitChar_ne_nil sep cs)
    | cons w ws =>
      rw [h] at ih
      by_cases hc : (c == sep) = true
      · simp only [hc, if_true]
        have hj : joinChar sep ([] :: w :: ws) = [] ++ sep :: joinChar sep (w :: ws) := rfl
        rw [hj, ih]
        simp only [List.nil_append]
        rw [show c = sep from by simpa using hc]
      · simp only [hc, Bool.false_eq_true, if_false]
        cases ws with
        | nil =>
          have hj : joinChar sep [c :: w] = c :: w := rfl
          rw [hj]
          have h2 : joinChar sep [w] = w := rfl
          rw [h2] at ih
          rw [ih]
        | cons w2 ws2 =>
          have hj : joinChar sep ((c :: w) :: w2 :: ws2) =
              (c :: w) ++ sep :: joinChar sep (w2 :: ws2) := rfl
          rw [hj]
          have h2 : joinChar sep (w :: w2 :: ws2) = w ++ sep :: joinChar sep (w2 :: ws2) := rfl
          rw [h2] at ih
          simp [← ih]

theorem added_map_keep (bs : List String) :
    ((bs.map (fun b => DiffLine.mk DiffKind.added b)).filter
        (fun d => !d.kind.isRemoved)).map DiffLine.text = bs := by
  induction bs with
  | nil => rfl
  | cons b bs ih =>
    have h1 : (DiffLine.mk DiffKind.added b).kind.isRemoved = false := rfl
    simp [h1, ih]

theorem added_map_drop (bs : List String) :
    ((bs.map (fun b => DiffLine.mk DiffKind.added b)).filter
        (fun d => !d.kind.isAdded)).map DiffLine.text = [] := by
  induction bs with
  | nil => rfl
  | cons b bs ih =>
    have h1 : (DiffLine.mk DiffKind.added b).kind.isAdded = true := rfl
    simp [h1, ih]

theorem removed_map_keep (as : List String) :
    ((as.map (fun x => DiffLine.mk DiffKind.removed x)).filter
        (fun d => !d.kind.isAdded)).map DiffLine.text = as := by
  induction as with
  | nil => rfl
  | cons a as ih =>
    have h1 : (DiffLine.mk DiffKind.removed a).kind.isAdded = false := rfl
    simp [h1, ih]

theorem removed_map_drop (as : List String) :
    ((as.map (fun x => DiffLine.mk DiffKind.removed x)).filter
        (fun d => !d.kind.isRemoved)).map DiffLine.text = [] := by
  induction as with
  | nil => rfl
  | cons a as ih =>
    have h1 : (DiffLine.mk DiffKind.removed a).kind.isRemoved = true := rfl
    simp [h1, ih]

theorem diffLines_reconstruct : ∀ (as bs : List String),
    ((diffLines as bs).filter (fun d => !d.kind.isAdded)).map DiffLine.text = as ∧
    ((diffLines as bs).filter (fun d => !d.kind.isRemoved)).map DiffLine.text = bs := by
  intro as bs
  induction as, bs using diffLines.induct with
  | case1 bs =>
    unfold diffLines
    exact ⟨added_map_drop bs, added_map_keep bs⟩
  | case2 a as =>
    unfold diffLines
    exact ⟨removed_map_keep (a :: as), removed_map_drop (a :: as)⟩
  | case3 a as b bs heq ih =>
    unfold diffLines
    rw [if_pos heq]
    have h1 : (DiffLine.mk DiffKind.same a).kind.isAdded = false := rfl
    have h2 : (DiffLine.mk DiffKind.same a).kind.isRemoved = false := rfl
    have hab : a = b := by simpa using heq
    exact ⟨by simp [h1, ih.1], by simp [h2, hab, ih.2]⟩
  | case4 a as b bs hne hge ih =>
    unfold diffLines
    rw [if_neg hne, if_pos hge]
    have h1 : (DiffLine.mk DiffKind.removed a).kind.isAdded = false := rfl
    have h2 : (DiffLine.mk DiffKind.removed a).kind.isRemoved = true := rfl
    exact ⟨by simp [h1, ih.1], by simp [h2, ih.2]⟩
  | case5 a as b bs hne hlt ih =>
    unfold diffLines
    rw [if_neg hne, if_neg hlt]
    have h1 : (DiffLine.mk DiffKind.added b).kind.isAdded = true := rfl
    have h2 : (DiffLine.mk DiffKind.added b).kind.isRemoved = false := rfl
    exact ⟨by simp [h1, ih.1], by simp [h2, ih.2]⟩

/-- C9: the line-level LCS diff engine round-trips: joining the texts of the
same+removed entries of `buildLineDiff a b` reconstructs `a`, and joining the
texts of the same+added entries reconstructs `b`. -/
theorem C9_diff_round_trip (a b : String) :
    joinNl (((buildLineDiff a b).filter (fun d => !d.kind.isAdded)).map DiffLine.text) = a ∧
    joinNl (((buildLineDiff a b).filter (fun d => !d.kind.isRemoved)).map DiffLine.text) = b := by
  have h := diffLines_reconstruct ((splitChar (Char.ofNat 10) a.toList).map String.mk)
      ((splitChar (Char.ofNat 10) b.toList).map String.mk)
  unfold buildLineDiff joinNl
  rw [show ('\n' : Char) = Char.ofNat 10 from rfl, h.1, h.2, List.map_map, List.map_map]
  have hid : (String.toList ∘ String.mk) = id := funext (fun l => rfl)
  rw [hid, List.map_id, List.map_id, joinChar_splitChar, joinChar_splitChar]
  exact ⟨by cases a; rfl, by cases b; rfl⟩


/-! ## C10: the synthesized plan passes validatePlan -/

mutual
/-- What the zod schema phase checks of a typed node: non-empty id,
whitelisted component, recursively for children. -/
def nodeDecodable : UINode → Bool
  | .mk i c _ none => i.length != 0 && ALLOWED_COMPONENTS.contains c
  | .mk i c _ (some l) =>
    i.length != 0 && ALLOWED_COMPONENTS.contains c && nodesDecodable l

def nodesDecodable : List UINode → Bool
  | [] => true
  | n :: ns => nodeDecodable n && nodesDecodable ns
end

theorem decode_success : ∀ fuel,
    (∀ n, nodeDecodable n = true → jsonWeight (nodeToJson n) ≤ fuel →
      decodeNode fuel (nodeToJson n) = some n) ∧
    (∀ ns, nodesDecodable ns = true → jsonListWeight (nodesToJson ns) < fuel →
      decodeNodes fuel (nodesToJson ns) = some ns) := by
  intro fuel
  induction fuel with
  | zero =>
    constructor
    · intro n h hw
      cases n with
      | mk i c p ch =>
        cases ch <;> simp [nodeToJson, jsonWeight] at hw
    · intro ns h hw
      exact absurd hw (by omega)
  | succ fuel ih =>
    constructor
    · intro n h hw
      cases n with
      | mk i c p ch =>
        cases ch with
        | none =>
          simp only [nodeDecodable] at h
          simp at h
          simp only [nodeToJson, List.append_nil]
          unfold decodeNode
          simp [getProp, List.find?, h.1, h.2]
        | some l =>
          simp only [nodeDecodable, Bool.and_eq_true] at h
          have h2 : nodesDecodable l = true := h.2
          simp at h
          have hrec : decodeNodes fuel (nodesToJson l) = some l := by
            apply ih.2 l h2
            simp only [nodeToJson, jsonWeight, jsonFieldsWeight] at hw
            omega
          simp only [nodeToJson]
          unfold decodeNode
          simp [getProp, List.find?, h.1.1, h.1.2, hrec]

    · intro ns h hw
      cases ns with
      | nil => rfl
      | cons n ns =>
        simp only [nodesDecodable, Bool.and_eq_true] at h
        simp only [nodesToJson, jsonListWeight] at hw ⊢
        unfold decodeNodes
        rw [ih.1 n h.1 (by omega), ih.2 ns h.2 (by omega)]

theorem nodesToJson_ne_nil (ns : List UINode) (h : ns ≠ []) : nodesToJson ns ≠ [] := by
  cases ns with
  | nil => exact absurd rfl h
  | cons x xs => simp [nodesToJson]

theorem decodePlan_planToJson_success (p : UIPlan)
    (hm : (p.mode == "stack" || p.mode == "grid" || p.mode == "split") = true)
    (hr : p.root ≠ [])
    (hd : nodesDecodable p.root = true) :
    decodePlan (planToJson p) = some p := by
  cases p with
  | mk m root mi =>
    have hdec : decodeNodes (jsonListWeight (nodesToJson root) + 1) (nodesToJson root)
        = some root := (decode_success _).2 root hd (by omega)
    have hlen : (nodesToJson root).length ≠ 0 := by
      have := nodesToJson_ne_nil root hr
      simpa [List.length_eq_zero] using this
    cases mi with
    | none =>
      simp only [planToJson, List.append_nil]
      unfold decodePlan
      simp [getProp, List.find?, hdec, hm, hlen]
    | some s =>
      simp only [planToJson]
      unfold decodePlan
      simp [getProp, List.find?, hdec, hm, hlen]

theorem vns_append (xs ys : List UINode) :
    validateNodesSchema (xs ++ ys) = (validateNodesSchema xs && validateNodesSchema ys) := by
  induction xs with
  | nil => simp [validateNodesSchema]
  | cons n ns ih => simp [validateNodesSchema, ih, Bool.and_assoc]

theorem ndec_append (xs ys : List UINode) :
    nodesDecodable (xs ++ ys) = (nodesDecodable xs && nodesDecodable ys) := by
  induction xs with
  | nil => simp [nodesDecodable]
  | cons n ns ih => simp [nodesDecodable, ih, Bool.and_assoc]

-- Joint shape-validity: both validation phases accept the list.
def segOk (ns : List UINode) : Prop :=
  validateNodesSchema ns = true ∧ nodesDecodable ns = true

theorem segOk_append (xs ys : List UINode) (hx : segOk xs) (hy : segOk ys) :
    segOk (xs ++ ys) := by
  constructor
  · rw [vns_append, hx.1, hy.1]; rfl
  · rw [ndec_append, hx.2, hy.2]; rfl

theorem segOk_nil : segOk [] := ⟨rfl, rfl⟩

theorem segOk_pair_ite (c : Bool) (a b : List UINode × Nat)
    (ha : segOk a.1) (hb : segOk b.1) : segOk (if c then a else b).1 := by
  cases c
  · simpa using hb
  · simpa using ha

theorem mkNode_id_ne (c : String) (k : Nat) :
    (toLowerStr c ++ "-" ++ toString k).length ≠ 0 := by
  have h1 : ("-" : String).length = 1 := rfl
  rw [String.length_append, String.length_append, h1]
  omega

theorem append_lit_ne (s t : String) (ht : t.length ≠ 0) : (s ++ t).length ≠ 0 := by
  rw [String.length_append]; omega

theorem navbarSegOk (t : String) (ls : List String) (k : Nat) (ht : t.length ≠ 0) :
    segOk [mkNode "Navbar" [("title", Json.str t), ("links", strArr ls)] none k] := by
  constructor
  · simp [validateNodesSchema, validateNodeSchema, mkNode, componentPropsValid,
      strictKeys, reqField, optField, getProp, List.find?, isNonEmptyStrVal,
      isStrArrVal, strArr, isStrVal, ht]
  · simp [nodesDecodable, nodeDecodable, mkNode, ALLOWED_COMPONENTS]
    intro _ h
    exact absurd h (by decide)


theorem sidebarSegOk (t : String) (items : List String) (k : Nat) (ht : t.length ≠ 0) :
    segOk [mkNode "Sidebar" [("title", Json.str t), ("items", strArr items)] none k] := by
  constructor
  · simp [validateNodesSchema, validateNodeSchema, mkNode, componentPropsValid,
      strictKeys, reqField, optField, getProp, List.find?, isNonEmptyStrVal,
      isStrArrVal, strArr, isStrVal, ht]
  · simp [nodesDecodable, nodeDecodable, mkNode, ALLOWED_COMPONENTS]
    intro _ h
    exact absurd h (by decide)

theorem inputSegOk (l ph : String) (k : Nat) (hl : l.length ≠ 0) :
    segOk [mkNode "Input" [("label", Json.str l), ("placeholder", Json.str ph)] none k] := by
  constructor
  · simp [validateNodesSchema, validateNodeSchema, mkNode, componentPropsValid,
      strictKeys, reqField, optField, getProp, List.find?, isNonEmptyStrVal,
      isStrVal, hl]
  · simp [nodesDecodable, nodeDecodable, mkNode, ALLOWED_COMPONENTS]
    intro _ h
    exact absurd h (by decide)

theorem buttonSegOk (l v : String) (k : Nat) (hl : l.length ≠ 0)
    (hv : v = "primary" ∨ v = "secondary") :
    segOk [mkNode "Button" [("label", Json.str l), ("variant", Json.str v)] none k] := by
  constructor
  · rcases hv with hv | hv <;>
    · subst hv
      simp [validateNodesSchema, validateNodeSchema, mkNode, componentPropsValid,
        strictKeys, reqField, optField, getProp, List.find?, isNonEmptyStrVal,
        isStrVal, hl]
  · simp [nodesDecodable, nodeDecodable, mkNode, ALLOWED_COMPONENTS]
    intro _ h
    exact absurd h (by decide)

theorem chartSegOk (t : String) (d : List (String × Int)) (k : Nat) (ht : t.length ≠ 0) :
    segOk [mkNode "Chart" [("title", Json.str t), ("data", chartDataJson d)] none k] := by
  constructor
  · simp [validateNodesSchema, validateNodeSchema, mkNode, componentPropsValid,
      strictKeys, reqField, optField, getProp, List.find?, isNonEmptyStrVal,
      isChartDataVal, chartDataJson, isChartPointVal, isStrVal, isNumVal, ht,
      List.all_map]
    intro x a b hmem hx
    subst hx
    simp [getProp, List.find?]
  · simp [nodesDecodable, nodeDecodable, mkNode, ALLOWED_COMPONENTS]
    intro _ h
    exact absurd h (by decide)

theorem tableNodeOk (cols : List String) (rows : List (List String)) (k : Nat) :
    segOk [mkNode "Table" [("columns", strArr cols), ("rows", rowsJson rows)] none k] := by
  constructor
  · simp [validateNodesSchema, validateNodeSchema, mkNode, componentPropsValid,
      strictKeys, reqField, optField, getProp, List.find?, isStrArrVal, strArr,
      isStrMatrixVal, rowsJson, isStrVal, List.all_map]
  · simp [nodesDecodable, nodeDecodable, mkNode, ALLOWED_COMPONENTS]
    intro _ h
    exact absurd h (by decide)

theorem cardSegOk (t : String) (ch : Option (List UINode)) (k : Nat) (ht : t.length ≠ 0)
    (hch : ∀ l, ch = some l → segOk l) :
    segOk [mkNode "Card" [("title", Json.str t)] ch k] := by
  constructor
  · cases ch with
    | none =>
      simp [validateNodesSchema, validateNodeSchema, mkNode, componentPropsValid,
        strictKeys, reqField, getProp, List.find?, isNonEmptyStrVal, ht]
    | some l =>
      have := (hch l rfl).1
      simp [validateNodesSchema, validateNodeSchema, mkNode, componentPropsValid,
        strictKeys, reqField, getProp, List.find?, isNonEmptyStrVal, ht,
        childCapable, this]
  · cases ch with
    | none =>
      simp [nodesDecodable, nodeDecodable, mkNode, ALLOWED_COMPONENTS]
      intro _ h
      exact absurd h (by decide)
    | some l =>
      have := (hch l rfl).2
      simp [nodesDecodable, nodeDecodable, mkNode, ALLOWED_COMPONENTS, this]
      intro _ h
      exact absurd h (by decide)

theorem modalSegOk (t : String) (kids : List UINode) (k : Nat) (ht : t.length ≠ 0)
    (hk : segOk kids) :
    segOk [mkNode "Modal" [("title", Json.str t), ("open", Json.bool true)]
      (some kids) k] := by
  constructor
  · simp [validateNodesSchema, validateNodeSchema, mkNode, componentPropsValid,
      strictKeys, reqField, getProp, List.find?, isNonEmptyStrVal, isBoolVal,
      childCapable, ht, hk.1]
  · simp [nodesDecodable, nodeDecodable, mkNode, ALLOWED_COMPONENTS, hk.2]
    intro _ h
    exact absurd h (by decide)

theorem pickByHash_ne_empty (items : List String) (h o : Nat)
    (hne : 0 < items.length)
    (hall : items.all (fun s => s.length != 0) = true) :
    (pickByHash items h o).length ≠ 0 := by
  unfold pickByHash
  have hlt : (h + o) % items.length < items.length := Nat.mod_lt _ hne
  have hmem : items.getD ((h + o) % items.length) "" ∈ items := by
    rw [List.getD_eq_getElem _ _ hlt]
    exact List.getElem_mem hlt
  have := List.all_eq_true.mp hall _ hmem
  simpa using this

theorem root_build_ok (fb root : List UINode)
    (hf : segOk fb ∧ fb ≠ []) (hr : segOk root) :
    segOk (if root.isEmpty then fb else root) ∧
      (if root.isEmpty then fb else root) ≠ [] := by
  split
  · exact ⟨hf.1, hf.2⟩
  · refine ⟨hr, ?_⟩
    simp only [List.isEmpty_iff] at *
    assumption

theorem optChildren_ok (kids : List UINode) (hk : segOk kids) :
    ∀ l, (if kids.isEmpty then none else some kids) = some l → segOk l := by
  intro l hl
  split at hl
  · cases hl
  · cases hl; exact hk

theorem buildPlan_root_ok (intent : String) :
    segOk (buildIntentAwarePlan intent).root ∧ (buildIntentAwarePlan intent).root ≠ [] := by
  have hUI : (inferTopic intent ++ " UI").length ≠ 0 := append_lit_ne _ _ (by decide)
  have hMenu : (inferTopic intent ++ " Menu").length ≠ 0 := append_lit_ne _ _ (by decide)
  have hAuth : (inferTopic intent ++ " Authentication").length ≠ 0 :=
    append_lit_ne _ _ (by decide)
  have hCtl : (inferTopic intent ++ " Controls").length ≠ 0 := append_lit_ne _ _ (by decide)
  have hTbl : (inferTopic intent ++ " Table").length ≠ 0 := append_lit_ne _ _ (by decide)
  have hMet : (inferTopic intent ++ " Metrics").length ≠ 0 := append_lit_ne _ _ (by decide)
  have hSet : (inferTopic intent ++ " Settings").length ≠ 0 := append_lit_ne _ _ (by decide)
  have hPan : (inferTopic intent ++ " Panel").length ≠ 0 := append_lit_ne _ _ (by decide)
  have hSignup : (if reTest reSignupWord (toLowerStr intent) = true then
      ("Create Account" : String) else "Sign In").length ≠ 0 := by
    split <;> decide
  have hSearch : (match (extractKeyPhrases intent).head? with
      | some p0 => "Search " ++ toTitleCase p0
      | none => ("Search" : String)).length ≠ 0 := by
    cases hp0 : (extractKeyPhrases intent).head? with
    | none => decide
    | some p0 =>
      rw [String.length_append]
      have : ("Search " : String).length = 7 := rfl
      omega
  have hPrim : (pickByHash ["Apply", "Create", "Save", "Search", "Launch"]
      (hashIntent (toLowerStr intent)) 1).length ≠ 0 :=
    pickByHash_ne_empty _ _ _ (by decide) (by decide)
  have hSec : (pickByHash ["Reset", "Clear", "Cancel", "Back", "Filter"]
      (hashIntent (toLowerStr intent)) 2).length ≠ 0 :=
    pickByHash_ne_empty _ _ _ (by decide) (by decide)
  unfold buildIntentAwarePlan
  simp only [UIPlan.root]
  refine root_build_ok _ _ ⟨?_, by simp⟩ ?_
  · -- the fallback Card with a single Button child
    refine cardSegOk _ _ _ hPan ?_
    intro l hl
    cases hl
    exact buttonSegOk _ _ _ (by decide) (Or.inl rfl)
  · -- the six concatenated segments
    simp only [List.append_assoc]
    refine segOk_append _ _ (segOk_pair_ite _ _ _ (navbarSegOk _ _ _ hUI) segOk_nil) ?_
    refine segOk_append _ _ (segOk_pair_ite _ _ _ (sidebarSegOk _ _ _ hMenu) segOk_nil) ?_
    refine segOk_append _ _ (segOk_pair_ite _ _ _ ?_ (segOk_pair_ite _ _ _ ?_ segOk_nil)) ?_
    · -- auth Card
      refine cardSegOk _ _ _ hAuth ?_
      intro l hl
      cases hl
      refine segOk_append _ _ (inputSegOk _ _ _ (by decide)) ?_
      refine segOk_append _ _ (inputSegOk _ _ _ (by decide)) ?_
      exact buttonSegOk _ _ _ hSignup (Or.inl rfl)
    · -- controls Card
      refine cardSegOk _ _ _ hCtl (optChildren_ok _ ?_)
      refine segOk_append _ _ (segOk_pair_ite _ _ _ (inputSegOk _ _ _ hSearch) segOk_nil) ?_
      refine segOk_pair_ite _ _ _ ?_ segOk_nil
      refine segOk_append _ _ (buttonSegOk _ _ _ hPrim (Or.inl rfl)) ?_
      exact buttonSegOk _ _ _ hSec (Or.inr rfl)
    refine segOk_append _ _ (segOk_pair_ite _ _ _ ?_ segOk_nil) ?_
    · -- table Card
      refine cardSegOk _ _ _ hTbl ?_
      intro l hl
      cases hl
      exact tableNodeOk _ _ _
    refine segOk_append _ _ (segOk_pair_ite _ _ _ (chartSegOk _ _ _ hMet) segOk_nil) ?_
    refine segOk_pair_ite _ _ _ ?_ segOk_nil
    -- settings Modal
    refine modalSegOk _ _ _ hSet ?_
    refine segOk_append _ _ (inputSegOk _ _ _ (by decide)) ?_
    exact buttonSegOk _ _ _ (by decide) (Or.inl rfl)

/-- C10: every plan produced by the deterministic full-synthesis path
(`buildIntentAwarePlan`) passes `validatePlan` — the schema phase decodes its
JSON value back to the same plan (non-empty root, whitelisted components,
children only where allowed), and the semantic per-component prop schemas all
accept, so the generator re-validation never rejects a synthesized plan. -/
theorem C10_synthesized_plans_validate (intent : String) :
    validatePlan (planToJson (buildIntentAwarePlan intent)) =
      some (buildIntentAwarePlan intent) := by
  obtain ⟨⟨hv, hd⟩, hne⟩ := buildPlan_root_ok intent
  have hmode : ((buildIntentAwarePlan intent).mode == "stack" ||
      (buildIntentAwarePlan intent).mode == "grid" ||
      (buildIntentAwarePlan intent).mode == "split") = true := by
    have hm : (buildIntentAwarePlan intent).mode = inferMode intent := rfl
    rw [hm]
    unfold inferMode
    split
    · decide
    split <;> decide
  have hdec := decodePlan_planToJson_success _ hmode hne hd
  unfold validatePlan
  rw [hdec]
  simp [hv]


/-! ## C6: JSON print/parse round trip -/

/-- Every character is JSON whitespace. -/
def allWs (cs : List Char) : Prop := ∀ c ∈ cs, jsonWsChar c = true

/-- The list does not start with a digit (so a number parse stops here). -/
def noDigitHead : List Char → Prop
  | [] => True
  | c :: _ => c.isDigit = false

theorem skipWs_append_all (ws l : List Char) (h : allWs ws) :
    skipWs (ws ++ l) = skipWs l := by
  induction ws with
  | nil => rfl
  | cons c cs ih =>
    have hc : jsonWsChar c = true := h c (List.mem_cons_self c cs)
    simp only [List.cons_append, skipWs, List.dropWhile_cons, hc, if_true]
    exact ih (fun x hx => h x (List.mem_cons_of_mem c hx))

theorem skipWs_cons_not (c : Char) (l : List Char) (h : jsonWsChar c = false) :
    skipWs (c :: l) = c :: l := by
  simp [skipWs, List.dropWhile_cons, h]

theorem digitChar_spec (m : Nat) (hm : m < 10) :
    (digitChar m).isDigit = true ∧ (digitChar m).toNat - 48 = m ∧
      jsonWsChar (digitChar m) = false := by
  interval_cases m <;> exact ⟨by decide, by decide, by decide⟩

theorem parseNat_render (fuel : Nat) : ∀ n acc rest, n < 10 ^ fuel →
    parseNatAux acc (renderNatAux fuel n ++ rest) =
      parseNatAux (acc * 10 ^ (renderNatAux fuel n).length + n) rest := by
  induction fuel with
  | zero =>
    intro n acc rest hn
    have h0 : n = 0 := by omega
    subst h0
    simp [renderNatAux]
  | succ fuel ih =>
    intro n acc rest hn
    by_cases h10 : n < 10
    · simp only [renderNatAux, h10, if_true]
      obtain ⟨hd, ht, -⟩ := digitChar_spec n h10
      simp [parseNatAux, hd, ht]
    · simp only [renderNatAux, h10, if_false]
      rw [List.append_assoc]
      simp only [List.cons_append, List.nil_append]
      have hdiv : n / 10 < 10 ^ fuel := by
        rw [Nat.div_lt_iff_lt_mul (by omega : 0 < 10)]
        calc n < 10 ^ (fuel + 1) := hn
          _ = 10 ^ fuel * 10 := by rw [Nat.pow_succ]
      rw [ih (n / 10) acc (digitChar (n % 10) :: rest) hdiv]
      obtain ⟨hd, ht, -⟩ := digitChar_spec (n % 10) (Nat.mod_lt _ (by omega))
      simp only [parseNatAux, hd, if_true, ht]
      rw [List.length_append]
      have : (acc * 10 ^ (renderNatAux fuel (n / 10)).length + n / 10) * 10 + n % 10 =
          acc * 10 ^ ((renderNatAux fuel (n / 10)).length + 1) + n := by
        rw [Nat.pow_succ]
        have := Nat.div_add_mod n 10
        ring_nf
        omega
      rw [this]
      rfl

theorem parseNat_stop (n : Nat) (rest : List Char) (h : noDigitHead rest) :
    parseNatAux n rest = (n, rest) := by
  cases rest with
  | nil => rfl
  | cons c cs =>
    simp only [noDigitHead] at h
    simp [parseNatAux, h]

theorem renderNat_parse (n : Nat) (rest : List Char) (h : noDigitHead rest) :
    parseNatAux 0 (renderNat n ++ rest) = (n, rest) := by
  unfold renderNat
  rw [parseNat_render (n + 1) n 0 rest (Nat.lt_pow_self (by omega) n |>.trans
    (Nat.pow_lt_pow_succ (by omega)))]
  simp [parseNat_stop n rest h]


theorem hexVal_hexDigitChar : ∀ m, m < 16 → hexVal (hexDigitChar m) = some m := by
  intro m hm
  interval_cases m <;> decide

theorem parseStrAux_escape_cons (c : Char) (l : List Char) :
    parseStrAux (escapeJsonChar c ++ l) =
      (parseStrAux l).map (fun p => (c :: p.1, p.2)) := by
  unfold escapeJsonChar
  by_cases h1 : c = '"'
  · subst h1; simp [parseStrAux]
  rw [if_neg (by simpa using h1)]
  by_cases h2 : c = '\\'
  · subst h2; simp [parseStrAux]
  rw [if_neg (by simpa using h2)]
  by_cases h3 : c = '\n'
  · subst h3; simp [parseStrAux]
  rw [if_neg (by simpa using h3)]
  by_cases h4 : c = '\r'
  · subst h4; simp [parseStrAux]
  rw [if_neg (by simpa using h4)]
  by_cases h5 : c = '\t'
  · subst h5; simp [parseStrAux]
  rw [if_neg (by simpa using h5)]
  by_cases h6 : c = Char.ofNat 8
  · subst h6; simp [parseStrAux]
  rw [if_neg (by simpa using h6)]
  by_cases h7 : c = Char.ofNat 12
  · subst h7; simp [parseStrAux]
  rw [if_neg (by simpa using h7)]
  by_cases h8 : c.toNat < 32
  · rw [if_pos h8]
    simp only [List.cons_append, List.nil_append]
    have hstep : parseStrAux ('\\' :: 'u' :: '0' :: '0' :: hexDigitChar (c.toNat / 16) ::
        hexDigitChar (c.toNat % 16) :: l) =
        (match hexVal '0', hexVal '0', hexVal (hexDigitChar (c.toNat / 16)),
            hexVal (hexDigitChar (c.toNat % 16)) with
        | some a, some b, some cc, some d =>
          (parseStrAux l).map (fun p =>
            (Char.ofNat (((a * 16 + b) * 16 + cc) * 16 + d) :: p.1, p.2))
        | _, _, _, _ => none) := rfl
    rw [hstep, hexVal_hexDigitChar (c.toNat / 16) (by omega),
      hexVal_hexDigitChar (c.toNat % 16) (by omega)]
    have h0 : hexVal '0' = some 0 := rfl
    rw [h0]
    have hc : Char.ofNat (c.toNat / 16 * 16 + c.toNat % 16) = c := by
      have h9 : c.toNat / 16 * 16 + c.toNat % 16 = c.toNat := by omega
      rw [h9]
      exact Char.ofNat_toNat c
    simp [hc]
  · rw [if_neg h8]
    simp only [List.cons_append, List.nil_append]
    unfold parseStrAux
    split
    · rename_i heq; simp_all
    · rename_i heq; simp_all
    · rename_i heq; simp_all
    · rename_i heq; simp_all
    · rename_i heq
      obtain ⟨h9, h10⟩ := List.cons.inj heq
      subst h9
      subst h10
      rw [← parseStrAux.eq_def]

theorem parseStr_render_chars : ∀ (cs : List Char) (rest : List Char),
    parseStrAux (cs.flatMap escapeJsonChar ++ '"' :: rest) = some (cs, rest) := by
  intro cs
  induction cs with
  | nil => intro rest; rfl
  | cons c cs ih =>
    intro rest
    rw [List.flatMap_cons, List.append_assoc, parseStrAux_escape_cons, ih]
    rfl

theorem digit_not_ws (c : Char) (hc : c.isDigit = true) : jsonWsChar c = false := by
  cases h : jsonWsChar c
  · rfl
  · simp only [jsonWsChar, Bool.or_eq_true, beq_iff_eq] at h
    rcases h with ((h | h) | h) | h <;> (subst h; exact absurd hc (by decide))

theorem parseVal_step_digit (fuel : Nat) (c : Char) (r : List Char)
    (hc : c.isDigit = true) :
    parseVal (fuel + 1) (c :: r) =
      some (Json.num ((parseNatAux 0 (c :: r)).1 : Int), (parseNatAux 0 (c :: r)).2) := by
  unfold parseVal
  rw [skipWs_cons_not c r (digit_not_ws c hc)]
  split <;> simp_all


theorem parseVal_step_neg (fuel : Nat) (c : Char) (r : List Char)
    (hc : c.isDigit = true) :
    parseVal (fuel + 1) ('-' :: c :: r) =
      some (Json.num (-((parseNatAux 0 (c :: r)).1 : Int)), (parseNatAux 0 (c :: r)).2) := by
  unfold parseVal
  rw [skipWs_cons_not '-' (c :: r) (by decide)]
  split <;> simp_all
  rename_i hno heq
  obtain ⟨h1, h2⟩ := heq
  subst h1
  subst h2
  exact absurd rfl (hno c r rfl)

theorem allWs_nil : allWs [] := fun c hc => absurd hc (List.not_mem_nil c)

theorem allWs_append (a b : List Char) (ha : allWs a) (hb : allWs b) : allWs (a ++ b) := by
  intro c hc
  rcases List.mem_append.mp hc with h | h
  · exact ha c h
  · exact hb c h

theorem allWs_indent (n : Nat) : allWs (indentChars n) := by
  intro c hc
  have := List.eq_of_mem_replicate hc
  subst this
  rfl

theorem allWs_nl_indent (n : Nat) : allWs ('\n' :: indentChars n) := by
  intro c hc
  rcases List.mem_cons.mp hc with h | h
  · subst h; rfl
  · exact allWs_indent n c h

theorem ws_not_digit (c : Char) (h : jsonWsChar c = true) : c.isDigit = false := by
  cases hd : c.isDigit
  · rfl
  · rw [digit_not_ws c hd] at h
    cases h

theorem noDigitHead_ws (ws : List Char) (c : Char) (rest : List Char)
    (hws : allWs ws) (hc : c.isDigit = false) : noDigitHead (ws ++ c :: rest) := by
  cases ws with
  | nil => exact hc
  | cons w ws2 =>
    exact ws_not_digit w (hws w (List.mem_cons_self w ws2))

theorem renderNatAux_head : ∀ fuel n, 0 < fuel →
    ∃ m t, m < 10 ∧ renderNatAux fuel n = digitChar m :: t := by
  intro fuel
  induction fuel with
  | zero => intro n h; omega
  | succ fuel ih =>
    intro n hp
    by_cases h10 : n < 10
    · exact ⟨n, [], h10, by simp [renderNatAux, h10]⟩
    · by_cases hf : fuel = 0
      · subst hf
        refine ⟨n % 10, [], Nat.mod_lt _ (by omega), ?_⟩
        simp [renderNatAux, h10]
      · obtain ⟨m, t, hm, ht⟩ := ih (n / 10) (Nat.pos_of_ne_zero hf)
        refine ⟨m, t ++ [digitChar (n % 10)], hm, ?_⟩
        simp [renderNatAux, h10, ht]

theorem renderJson_head (ind : Nat) (j : Json) :
    ∃ c t, renderJson ind j = c :: t ∧ jsonWsChar c = false ∧ c ≠ ']' ∧ c ≠ '\x7d' := by
  cases j with
  | null => refine ⟨'n', _, rfl, ?_, ?_, ?_⟩ <;> decide
  | str s => refine ⟨'"', _, rfl, ?_, ?_, ?_⟩ <;> decide
  | num i =>
    by_cases hneg : i < 0
    · refine ⟨'-', renderNat i.natAbs, ?_, by decide, by decide, by decide⟩
      simp [renderJson, renderInt, hneg]
    · obtain ⟨m, t, hm, ht⟩ := renderNatAux_head (i.toNat + 1) i.toNat (by omega)
      refine ⟨digitChar m, t, ?_, ?_, ?_, ?_⟩
      · simp [renderJson, renderInt, hneg, renderNat, ht]
      · exact (digitChar_spec m hm).2.2
      · interval_cases m <;> decide
      · interval_cases m <;> decide
  | bool b =>
    cases b with
    | false => refine ⟨'f', _, rfl, ?_, ?_, ?_⟩ <;> decide
    | true => refine ⟨'t', _, rfl, ?_, ?_, ?_⟩ <;> decide
  | arr es =>
    cases es with
    | nil => refine ⟨'[', _, rfl, ?_, ?_, ?_⟩ <;> decide
    | cons e es2 => refine ⟨'[', _, rfl, ?_, ?_, ?_⟩ <;> decide
  | obj fs =>
    cases fs with
    | nil => refine ⟨'\x7b', _, rfl, ?_, ?_, ?_⟩ <;> decide
    | cons f fs2 => refine ⟨'\x7b', _, rfl, ?_, ?_, ?_⟩ <;> decide

theorem parseVal_step_quote (fuel : Nat) (r : List Char) :
    parseVal (fuel + 1) ('"' :: r) =
      (parseStrAux r).map (fun p => (Json.str (String.mk p.1), p.2)) := by
  unfold parseVal
  rw [skipWs_cons_not _ _ (by decide)]
  split <;> simp_all
  rename_i hq hlb hbr ht hf hn hall heq
  exact absurd heq.1.symm hq

theorem parseVal_step_arr (fuel : Nat) (r : List Char) :
    parseVal (fuel + 1) ('[' :: r) =
      (match skipWs r with
       | ']' :: r2 => some (Json.arr [], r2)
       | _ => (parseElems fuel r).map (fun p => (Json.arr p.1, p.2))) := by
  unfold parseVal
  rw [skipWs_cons_not _ _ (by decide)]
  split <;> simp_all
  rename_i hq hlb hbr ht hf hn hall heq
  exact absurd heq.1.symm hlb

theorem parseVal_step_obj (fuel : Nat) (r : List Char) :
    parseVal (fuel + 1) ('\x7b' :: r) =
      (match skipWs r with
       | '\x7d' :: r2 => some (Json.obj [], r2)
       | _ => (parseFields fuel r).map (fun p => (Json.obj p.1, p.2))) := by
  unfold parseVal
  rw [skipWs_cons_not _ _ (by decide)]
  split <;> simp_all
  rename_i hq hlb hbr ht hf hn hall heq
  exact absurd heq.1.symm hbr

theorem jsonWeight_pos (j : Json) : 1 ≤ jsonWeight j := by
  cases j <;> simp [jsonWeight]

theorem allWs_nl : allWs ['\n'] := by
  intro c hc
  rcases List.mem_cons.mp hc with h | h
  · subst h; rfl
  · exact absurd h (List.not_mem_nil c)

theorem allWs_sp : allWs [' '] := by
  intro c hc
  rcases List.mem_cons.mp hc with h | h
  · subst h; rfl
  · exact absurd h (List.not_mem_nil c)

theorem renderElems_decompose (ind : Nat) (e : Json) (es2 : List Json) :
    ∃ Y, renderElems ind (e :: es2) = indentChars ind ++ (renderJson ind e ++ Y) := by
  cases es2 with
  | nil => exact ⟨[], by simp [renderElems]⟩
  | cons e2 es3 =>
    exact ⟨',' :: '\n' :: renderElems ind (e2 :: es3), by simp [renderElems]⟩

theorem parseVal_dropWs (fuel : Nat) (ws X : List Char) (h : allWs ws) :
    parseVal (fuel + 1) (ws ++ X) = parseVal (fuel + 1) X := by
  unfold parseVal
  rw [skipWs_append_all _ _ h]

theorem parseFields_dropWs (fuel : Nat) (ws X : List Char) (h : allWs ws) :
    parseFields (fuel + 1) (ws ++ X) = parseFields (fuel + 1) X := by
  unfold parseFields
  rw [skipWs_append_all _ _ h]

theorem parseFields_step_quote (fuel : Nat) (r : List Char) :
    parseFields (fuel + 1) ('"' :: r) =
      (parseStrAux r).bind (fun k =>
        match skipWs k.2 with
        | ':' :: r2 =>
          (parseVal fuel r2).bind (fun v =>
            match skipWs v.2 with
            | ',' :: r3 => (parseFields fuel r3).map (fun q =>
                ((String.mk k.1, v.1) :: q.1, q.2))
            | '\x7d' :: r3 => some ([(String.mk k.1, v.1)], r3)
            | _ => none)
        | _ => none) := by
  conv_lhs => unfold parseFields
  rw [skipWs_cons_not _ _ (by decide)]
  split <;> simp_all

theorem parse_render : ∀ fuel,
    (∀ j ind ws rest, allWs ws → noDigitHead rest → jsonWeight j ≤ fuel →
      parseVal fuel (ws ++ (renderJson ind j ++ rest)) = some (j, rest)) ∧
    (∀ es ind ws rest ws2, allWs ws → allWs ws2 → es ≠ [] → jsonListWeight es ≤ fuel →
      parseElems fuel (ws ++ (renderElems ind es ++ (ws2 ++ ']' :: rest))) =
        some (es, rest)) ∧
    (∀ fs ind ws rest ws2, allWs ws → allWs ws2 → fs ≠ [] → jsonFieldsWeight fs ≤ fuel →
      parseFields fuel (ws ++ (renderFields ind fs ++ (ws2 ++ '\x7d' :: rest))) =
        some (fs, rest)) := by
  intro fuel
  induction fuel with
  | zero =>
    refine ⟨?_, ?_, ?_⟩
    · intro j ind ws rest hws hnd hw
      exact absurd (jsonWeight_pos j) (by omega)
    · intro es ind ws rest ws2 hws hws2 hne hw
      cases es with
      | nil => exact absurd rfl hne
      | cons e es2 => simp [jsonListWeight] at hw
    · intro fs ind ws rest ws2 hws hws2 hne hw
      cases fs with
      | nil => exact absurd rfl hne
      | cons f fs2 => simp [jsonFieldsWeight] at hw
  | succ fuel ih =>
    obtain ⟨ihv, ihe, ihf⟩ := ih
    refine ⟨?_, ?_, ?_⟩
    · -- parseVal on rendered output
      intro j ind ws rest hws hnd hw
      rw [parseVal_dropWs fuel ws _ hws]
      cases j with
      | null =>
        unfold parseVal
        have h1 : renderJson ind Json.null ++ rest = 'n' :: 'u' :: 'l' :: 'l' :: rest := rfl
        rw [h1, skipWs_cons_not _ _ (by decide)]
        simp [List.isPrefixOf]
      | bool b =>
        cases b with
        | true =>
          unfold parseVal
          have h1 : renderJson ind (Json.bool true) ++ rest =
              't' :: 'r' :: 'u' :: 'e' :: rest := rfl
          rw [h1, skipWs_cons_not _ _ (by decide)]
          simp [List.isPrefixOf]
        | false =>
          unfold parseVal
          have h1 : renderJson ind (Json.bool false) ++ rest =
              'f' :: 'a' :: 'l' :: 's' :: 'e' :: rest := rfl
          rw [h1, skipWs_cons_not _ _ (by decide)]
          simp [List.isPrefixOf]
      | str s =>
        have h1 : renderJson ind (Json.str s) ++ rest =
            '"' :: (s.toList.flatMap escapeJsonChar ++ '"' :: rest) := by
          simp [renderJson, renderStr]
        rw [h1, parseVal_step_quote, parseStr_render_chars]
        rfl
      | num i =>
        by_cases hneg : i < 0
        · obtain ⟨m, t, hm, ht⟩ := renderNatAux_head (i.natAbs + 1) i.natAbs (by omega)
          have h1 : renderJson ind (Json.num i) ++ rest =
              '-' :: (digitChar m :: (t ++ rest)) := by
            simp [renderJson, renderInt, hneg, renderNat, ht]
          rw [h1, parseVal_step_neg fuel _ _ (digitChar_spec m hm).1]
          have h2 : digitChar m :: (t ++ rest) = renderNat i.natAbs ++ rest := by
            simp [renderNat, ht]
          rw [h2, renderNat_parse _ _ hnd]
          have h3 : -((i.natAbs : Nat) : Int) = i := by omega
          rw [h3]
        · obtain ⟨m, t, hm, ht⟩ := renderNatAux_head (i.toNat + 1) i.toNat (by omega)
          have h1 : renderJson ind (Json.num i) ++ rest = digitChar m :: (t ++ rest) := by
            simp [renderJson, renderInt, hneg, renderNat, ht]
          rw [h1, parseVal_step_digit fuel _ _ (digitChar_spec m hm).1]
          have h2 : digitChar m :: (t ++ rest) = renderNat i.toNat ++ rest := by
            simp [renderNat, ht]
          rw [h2, renderNat_parse _ _ hnd]
          have h3 : ((i.toNat : Nat) : Int) = i := by omega
          rw [h3]
      | arr es =>
        cases es with
        | nil =>
          have h1 : renderJson ind (Json.arr []) ++ rest = '[' :: (']' :: rest) := rfl
          rw [h1, parseVal_step_arr, skipWs_cons_not _ _ (by decide)]
          rfl
        | cons e es2 =>
          have h1 : renderJson ind (Json.arr (e :: es2)) ++ rest =
              '[' :: ('\n' :: (renderElems (ind + 2) (e :: es2) ++
                (('\n' :: indentChars ind) ++ ']' :: rest))) := by
            simp [renderJson, List.append_assoc]
          rw [h1, parseVal_step_arr]
          obtain ⟨Y, hY⟩ := renderElems_decompose (ind + 2) e es2
          obtain ⟨c, t, hct, hcw, hcbr, hcbr2⟩ := renderJson_head (ind + 2) e
          have hsk : skipWs ('\n' :: (renderElems (ind + 2) (e :: es2) ++
              (('\n' :: indentChars ind) ++ ']' :: rest))) =
              c :: (t ++ (Y ++ (('\n' :: indentChars ind) ++ ']' :: rest))) := by
            rw [hY, hct]
            rw [show ('\n' :: ((indentChars (ind + 2) ++ ((c :: t) ++ Y)) ++
                (('\n' :: indentChars ind) ++ ']' :: rest))) =
                ('\n' :: indentChars (ind + 2)) ++
                  (c :: (t ++ (Y ++ (('\n' :: indentChars ind) ++ ']' :: rest)))) from by
              simp [List.append_assoc]]
            rw [skipWs_append_all _ _ (allWs_nl_indent (ind + 2)),
              skipWs_cons_not _ _ hcw]
          rw [hsk]
          split
          · rename_i r2 heq
            exact absurd (List.cons.inj heq).1 hcbr
          · have hcall := ihe (e :: es2) (ind + 2) ['\n'] rest ('\n' :: indentChars ind)
              allWs_nl (allWs_nl_indent ind) (by simp)
              (by simp [jsonWeight] at hw; omega)
            rw [show ('\n' :: (renderElems (ind + 2) (e :: es2) ++
                (('\n' :: indentChars ind) ++ ']' :: rest))) =
                ['\n'] ++ (renderElems (ind + 2) (e :: es2) ++
                  (('\n' :: indentChars ind) ++ ']' :: rest)) from rfl, hcall]
            rfl
      | obj fs =>
        cases fs with
        | nil =>
          have h1 : renderJson ind (Json.obj []) ++ rest = '\x7b' :: ('\x7d' :: rest) := rfl
          rw [h1, parseVal_step_obj, skipWs_cons_not _ _ (by decide)]
          rfl
        | cons kv fs2 =>
          have h1 : renderJson ind (Json.obj (kv :: fs2)) ++ rest =
              '\x7b' :: ('\n' :: (renderFields (ind + 2) (kv :: fs2) ++
                (('\n' :: indentChars ind) ++ '\x7d' :: rest))) := by
            simp [renderJson, List.append_assoc]
          rw [h1, parseVal_step_obj]
          have hdec : ∃ Y, renderFields (ind + 2) (kv :: fs2) =
              indentChars (ind + 2) ++ ('"' :: (kv.1.toList.flatMap escapeJsonChar ++ Y)) := by
            cases fs2 with
            | nil =>
              exact ⟨'"' :: (':' :: ' ' :: renderJson (ind + 2) kv.2), by
                simp [renderFields, renderStr, List.append_assoc]⟩
            | cons kv2 fs3 =>
              exact ⟨'"' :: (':' :: ' ' :: (renderJson (ind + 2) kv.2 ++
                ',' :: '\n' :: renderFields (ind + 2) (kv2 :: fs3))), by
                simp [renderFields, renderStr, List.append_assoc]⟩
          obtain ⟨Y, hY⟩ := hdec
          have hsk : skipWs ('\n' :: (renderFields (ind + 2) (kv :: fs2) ++
              (('\n' :: indentChars ind) ++ '\x7d' :: rest))) =
              '"' :: ((kv.1.toList.flatMap escapeJsonChar ++ Y) ++
                (('\n' :: indentChars ind) ++ '\x7d' :: rest)) := by
            rw [hY]
            rw [show ('\n' :: ((indentChars (ind + 2) ++
                ('"' :: (kv.1.toList.flatMap escapeJsonChar ++ Y))) ++
                (('\n' :: indentChars ind) ++ '\x7d' :: rest))) =
                ('\n' :: indentChars (ind + 2)) ++
                  ('"' :: ((kv.1.toList.flatMap escapeJsonChar ++ Y) ++
                    (('\n' :: indentChars ind) ++ '\x7d' :: rest))) from by
              simp [List.append_assoc]]
            rw [skipWs_append_all _ _ (allWs_nl_indent (ind + 2)),
              skipWs_cons_not _ _ (by decide)]
          rw [hsk]
          split
          · rename_i r2 heq
            exact absurd (List.cons.inj heq).1 (by decide)
          · have hcall := ihf (kv :: fs2) (ind + 2) ['\n'] rest ('\n' :: indentChars ind)
              allWs_nl (allWs_nl_indent ind) (by simp)
              (by simp [jsonWeight] at hw; omega)
            rw [show ('\n' :: (renderFields (ind + 2) (kv :: fs2) ++
                (('\n' :: indentChars ind) ++ '\x7d' :: rest))) =
                ['\n'] ++ (renderFields (ind + 2) (kv :: fs2) ++
                  (('\n' :: indentChars ind) ++ '\x7d' :: rest)) from rfl, hcall]
            rfl
    · -- parseElems on rendered elements
      intro es ind ws rest ws2 hws hws2 hne hw
      cases es with
      | nil => exact absurd rfl hne
      | cons e es2 =>
        cases es2 with
        | nil =>
          unfold parseElems
          have h1 : ws ++ (renderElems ind [e] ++ (ws2 ++ ']' :: rest)) =
              (ws ++ indentChars ind) ++ (renderJson ind e ++ (ws2 ++ ']' :: rest)) := by
            simp [renderElems, List.append_assoc]
          rw [h1, ihv e ind (ws ++ indentChars ind) (ws2 ++ ']' :: rest)
            (allWs_append _ _ hws (allWs_indent ind))
            (noDigitHead_ws ws2 ']' rest hws2 (by decide))
            (by simp [jsonListWeight] at hw; omega)]
          show (match skipWs (ws2 ++ ']' :: rest) with
            | ',' :: r => (parseElems fuel r).map (fun q => (e :: q.1, q.2))
            | ']' :: r => some ([e], r)
            | _ => none) = some ([e], rest)
          rw [skipWs_append_all _ _ hws2, skipWs_cons_not _ _ (by decide)]
          rfl
        | cons e2 es3 =>
          unfold parseElems
          have h1 : ws ++ (renderElems ind (e :: e2 :: es3) ++ (ws2 ++ ']' :: rest)) =
              (ws ++ indentChars ind) ++ (renderJson ind e ++
                (',' :: '\n' :: (renderElems ind (e2 :: es3) ++ (ws2 ++ ']' :: rest)))) := by
            simp [renderElems, List.append_assoc]
          rw [h1, ihv e ind (ws ++ indentChars ind) _
            (allWs_append _ _ hws (allWs_indent ind)) (by exact rfl)
            (by simp [jsonListWeight] at hw; omega)]
          show (match skipWs (',' :: '\n' :: (renderElems ind (e2 :: es3) ++
              (ws2 ++ ']' :: rest))) with
            | ',' :: r => (parseElems fuel r).map (fun q => (e :: q.1, q.2))
            | ']' :: r => some ([e], r)
            | _ => none) = some (e :: e2 :: es3, rest)
          rw [skipWs_cons_not _ _ (by decide)]
          have hcall := ihe (e2 :: es3) ind ['\n'] rest ws2
            allWs_nl hws2 (by simp) (by simp [jsonListWeight] at hw ⊢; omega)
          show (parseElems fuel ('\n' :: (renderElems ind (e2 :: es3) ++
              (ws2 ++ ']' :: rest)))).map (fun q => (e :: q.1, q.2)) =
            some (e :: e2 :: es3, rest)
          rw [show ('\n' :: (renderElems ind (e2 :: es3) ++ (ws2 ++ ']' :: rest))) =
              ['\n'] ++ (renderElems ind (e2 :: es3) ++ (ws2 ++ ']' :: rest)) from rfl,
            hcall]
          rfl
    · -- parseFields on rendered fields
      intro fs ind ws rest ws2 hws hws2 hne hw
      cases fs with
      | nil => exact absurd rfl hne
      | cons kv fs2 =>
        obtain ⟨k, v⟩ := kv
        cases fs2 with
        | nil =>
          have h1 : ws ++ (renderFields ind [(k, v)] ++ (ws2 ++ '\x7d' :: rest)) =
              (ws ++ indentChars ind) ++ ('"' :: (k.toList.flatMap escapeJsonChar ++
                '"' :: (':' :: ' ' :: (renderJson ind v ++ (ws2 ++ '\x7d' :: rest))))) := by
            simp [renderFields, renderStr, List.append_assoc]
          rw [h1, parseFields_dropWs fuel _ _ (allWs_append _ _ hws (allWs_indent ind)),
            parseFields_step_quote, parseStr_render_chars]
          show (match skipWs (':' :: ' ' :: (renderJson ind v ++ (ws2 ++ '\x7d' :: rest))) with
            | ':' :: r2 =>
              (parseVal fuel r2).bind (fun vv =>
                match skipWs vv.2 with
                | ',' :: r3 => (parseFields fuel r3).map (fun q =>
                    ((String.mk k.toList, vv.1) :: q.1, q.2))
                | '\x7d' :: r3 => some ([(String.mk k.toList, vv.1)], r3)
                | _ => none)
            | _ => none) = some ([(k, v)], rest)
          rw [skipWs_cons_not _ _ (by decide)]
          show (parseVal fuel ([' '] ++ (renderJson ind v ++
              (ws2 ++ '\x7d' :: rest)))).bind (fun vv =>
            match skipWs vv.2 with
            | ',' :: r3 => (parseFields fuel r3).map (fun q =>
                ((String.mk k.toList, vv.1) :: q.1, q.2))
            | '\x7d' :: r3 => some ([(String.mk k.toList, vv.1)], r3)
            | _ => none) = some ([(k, v)], rest)
          rw [ihv v ind [' '] (ws2 ++ '\x7d' :: rest) allWs_sp
            (noDigitHead_ws ws2 '\x7d' rest hws2 (by decide))
            (by simp [jsonFieldsWeight] at hw; omega)]
          show (match skipWs (ws2 ++ '\x7d' :: rest) with
            | ',' :: r3 => (parseFields fuel r3).map (fun q =>
                ((String.mk k.toList, v) :: q.1, q.2))
            | '\x7d' :: r3 => some ([(String.mk k.toList, v)], r3)
            | _ => none) = some ([(k, v)], rest)
          rw [skipWs_append_all _ _ hws2, skipWs_cons_not _ _ (by decide)]
          cases k
          rfl
        | cons kv2 fs3 =>
          have h1 : ws ++ (renderFields ind ((k, v) :: kv2 :: fs3) ++
              (ws2 ++ '\x7d' :: rest)) =
              (ws ++ indentChars ind) ++ ('"' :: (k.toList.flatMap escapeJsonChar ++
                '"' :: (':' :: ' ' :: (renderJson ind v ++
                  (',' :: '\n' :: (renderFields ind (kv2 :: fs3) ++
                    (ws2 ++ '\x7d' :: rest))))))) := by
            simp [renderFields, renderStr, List.append_assoc]
          rw [h1, parseFields_dropWs fuel _ _ (allWs_append _ _ hws (allWs_indent ind)),
            parseFields_step_quote, parseStr_render_chars]
          show (match skipWs (':' :: ' ' :: (renderJson ind v ++
              (',' :: '\n' :: (renderFields ind (kv2 :: fs3) ++
                (ws2 ++ '\x7d' :: rest))))) with
            | ':' :: r2 =>
              (parseVal fuel r2).bind (fun vv =>
                match skipWs vv.2 with
                | ',' :: r3 => (parseFields fuel r3).map (fun q =>
                    ((String.mk k.toList, vv.1) :: q.1, q.2))
                | '\x7d' :: r3 => some ([(String.mk k.toList, vv.1)], r3)
                | _ => none)
            | _ => none) = some ((k, v) :: kv2 :: fs3, rest)
          rw [skipWs_cons_not _ _ (by decide)]
          show (parseVal fuel ([' '] ++ (renderJson ind v ++
              (',' :: '\n' :: (renderFields ind (kv2 :: fs3) ++
                (ws2 ++ '\x7d' :: rest)))))).bind (fun vv =>
            match skipWs vv.2 with
            | ',' :: r3 => (parseFields fuel r3).map (fun q =>
                ((String.mk k.toList, vv.1) :: q.1, q.2))
            | '\x7d' :: r3 => some ([(String.mk k.toList, vv.1)], r3)
            | _ => none) = some ((k, v) :: kv2 :: fs3, rest)
          rw [ihv v ind [' '] _ allWs_sp (by exact rfl)
            (by simp [jsonFieldsWeight] at hw; omega)]
          show (match skipWs (',' :: '\n' :: (renderFields ind (kv2 :: fs3) ++
              (ws2 ++ '\x7d' :: rest))) with
            | ',' :: r3 => (parseFields fuel r3).map (fun q =>
                ((String.mk k.toList, v) :: q.1, q.2))
            | '\x7d' :: r3 => some ([(String.mk k.toList, v)], r3)
            | _ => none) = some ((k, v) :: kv2 :: fs3, rest)
          rw [skipWs_cons_not _ _ (by decide)]
          have hcall := ihf (kv2 :: fs3) ind ['\n'] rest ws2
            allWs_nl hws2 (by simp) (by simp [jsonFieldsWeight] at hw ⊢; omega)
          show (parseFields fuel ('\n' :: (renderFields ind (kv2 :: fs3) ++
              (ws2 ++ '\x7d' :: rest)))).map (fun q =>
                ((String.mk k.toList, v) :: q.1, q.2)) =
            some ((k, v) :: kv2 :: fs3, rest)
          rw [show ('\n' :: (renderFields ind (kv2 :: fs3) ++ (ws2 ++ '\x7d' :: rest))) =
              ['\n'] ++ (renderFields ind (kv2 :: fs3) ++ (ws2 ++ '\x7d' :: rest)) from rfl,
            hcall]
          cases k
          rfl

theorem renderNatAux_len_pos (fuel n : Nat) (h : 0 < fuel) :
    1 ≤ (renderNatAux fuel n).length := by
  obtain ⟨m, t, hm, ht⟩ := renderNatAux_head fuel n h
  rw [ht]
  simp

theorem render_length_bound : ∀ fuel,
    (∀ j ind, jsonWeight j ≤ fuel → jsonWeight j ≤ (renderJson ind j).length) ∧
    (∀ es ind, es ≠ [] → jsonListWeight es ≤ fuel →
      jsonListWeight es ≤ (renderElems ind es).length + 1) ∧
    (∀ fs ind, fs ≠ [] → jsonFieldsWeight fs ≤ fuel →
      jsonFieldsWeight fs ≤ (renderFields ind fs).length + 1) := by
  intro fuel
  induction fuel with
  | zero =>
    refine ⟨?_, ?_, ?_⟩
    · intro j ind hw
      exact absurd (jsonWeight_pos j) (by omega)
    · intro es ind hne hw
      cases es with
      | nil => exact absurd rfl hne
      | cons e es2 => simp [jsonListWeight] at hw
    · intro fs ind hne hw
      cases fs with
      | nil => exact absurd rfl hne
      | cons f fs2 => simp [jsonFieldsWeight] at hw
  | succ fuel ih =>
    obtain ⟨ihv, ihe, ihf⟩ := ih
    refine ⟨?_, ?_, ?_⟩
    · intro j ind hw
      cases j with
      | null => simp [jsonWeight, renderJson]
      | bool b => cases b <;> simp [jsonWeight, renderJson]
      | str s => simp [jsonWeight, renderJson, renderStr]
      | num i =>
        simp only [jsonWeight, renderJson, renderInt]
        split
        · simp only [List.length_cons, renderNat]
          have := renderNatAux_len_pos (i.natAbs + 1) i.natAbs (by omega)
          omega
        · simp only [renderNat]
          exact renderNatAux_len_pos (i.toNat + 1) i.toNat (by omega)
      | arr es =>
        cases es with
        | nil => simp [jsonWeight, jsonListWeight, renderJson]
        | cons e es2 =>
          have h1 := ihe (e :: es2) (ind + 2) (by simp)
            (by simp [jsonWeight] at hw; omega)
          simp only [jsonWeight, renderJson] at *
          simp only [List.length_cons, List.length_append, indentChars,
            List.length_replicate]
          omega
      | obj fs =>
        cases fs with
        | nil => simp [jsonWeight, jsonFieldsWeight, renderJson]
        | cons kv fs2 =>
          have h1 := ihf (kv :: fs2) (ind + 2) (by simp)
            (by simp [jsonWeight] at hw; omega)
          simp only [jsonWeight, renderJson] at *
          simp only [List.length_cons, List.length_append, indentChars,
            List.length_replicate]
          omega
    · intro es ind hne hw
      cases es with
      | nil => exact absurd rfl hne
      | cons e es2 =>
        cases es2 with
        | nil =>
          have h1 := ihv e ind (by simp [jsonListWeight] at hw; omega)
          simp only [jsonListWeight, jsonListWeight, renderElems] at *
          simp only [List.length_append, indentChars, List.length_replicate]
          omega
        | cons e2 es3 =>
          have h1 := ihv e ind (by simp [jsonListWeight] at hw; omega)
          have h2 := ihe (e2 :: es3) ind (by simp)
            (by simp [jsonListWeight] at hw ⊢; omega)
          simp only [jsonListWeight, renderElems] at *
          simp only [List.length_append, indentChars, List.length_replicate,
            List.length_cons]
          omega
    · intro fs ind hne hw
      cases fs with
      | nil => exact absurd rfl hne
      | cons kv fs2 =>
        cases fs2 with
        | nil =>
          have h1 := ihv kv.2 ind (by simp [jsonFieldsWeight] at hw; omega)
          simp only [jsonFieldsWeight, renderFields] at *
          simp only [List.length_append, indentChars, List.length_replicate,
            List.length_cons]
          omega
        | cons kv2 fs3 =>
          have h1 := ihv kv.2 ind (by simp [jsonFieldsWeight] at hw; omega)
          have h2 := ihf (kv2 :: fs3) ind (by simp)
            (by simp [jsonFieldsWeight] at hw ⊢; omega)
          simp only [jsonFieldsWeight, renderFields] at *
          simp only [List.length_append, indentChars, List.length_replicate,
            List.length_cons]
          omega

theorem jsonParse_renderJson (j : Json) :
    jsonParse (String.mk (renderJson 0 j)) = some j := by
  unfold jsonParse
  have htl : (String.mk (renderJson 0 j)).toList = renderJson 0 j := rfl
  rw [htl]
  have hw : jsonWeight j ≤ (renderJson 0 j).length + 1 :=
    le_trans ((render_length_bound (jsonWeight j)).1 j 0 (le_refl _)) (by omega)
  have hp := (parse_render ((renderJson 0 j).length + 1)).1 j 0 [] []
    allWs_nil trivial hw
  simp only [List.nil_append, List.append_nil] at hp
  rw [hp]
  rfl

theorem splitAfterFirst_found (marker input : List Char) (hne : input ≠ [])
    (hpre : marker.isPrefixOf input = true) :
    splitAfterFirst marker input = some (input.drop marker.length) := by
  cases input with
  | nil => exact absurd rfl hne
  | cons c cs =>
    unfold splitAfterFirst
    rw [if_pos hpre]

theorem splitAfterFirst_exact (m2 : List Char) (ch : Char) (pre post : List Char)
    (hm : ch ∉ m2) (hp : ch ∉ pre) :
    splitAfterFirst (m2 ++ [ch]) (pre ++ (m2 ++ ch :: post)) = some post := by
  induction pre with
  | nil =>
    simp only [List.nil_append]
    have hform : m2 ++ ch :: post = (m2 ++ [ch]) ++ post := by simp
    rw [hform]
    rw [splitAfterFirst_found _ _ (by simp) (List.isPrefixOf_iff_prefix.mpr
      (List.prefix_append _ _))]
    rw [List.drop_left]
  | cons c pre2 ih =>
    have hnp : (m2 ++ [ch]).isPrefixOf (c :: (pre2 ++ (m2 ++ ch :: post))) = false := by
      by_contra hcon
      have htrue : (m2 ++ [ch]).isPrefixOf (c :: (pre2 ++ (m2 ++ ch :: post))) = true := by
        cases h : (m2 ++ [ch]).isPrefixOf (c :: (pre2 ++ (m2 ++ ch :: post)))
        · exact absurd h hcon
        · rfl
      obtain ⟨t, ht⟩ := List.isPrefixOf_iff_prefix.mp htrue
      have hmem : ch ∈ (m2 ++ [ch]) := by simp
      have htake : (m2 ++ [ch]) =
          (c :: (pre2 ++ (m2 ++ ch :: post))).take (m2.length + 1) := by
        rw [← ht]
        rw [show m2.length + 1 = (m2 ++ [ch]).length from by simp]
        rw [List.take_left]
      rw [htake] at hmem
      have hre : (c :: (pre2 ++ (m2 ++ ch :: post))).take (m2.length + 1) =
          c :: ((pre2 ++ m2) ++ ch :: post).take m2.length := by
        simp [List.append_assoc]
      rw [hre] at hmem
      rcases List.mem_cons.mp hmem with h1 | h1
      · exact hp (h1 ▸ List.mem_cons_self c pre2)
      · have hsub : ((pre2 ++ m2) ++ ch :: post).take m2.length =
            (pre2 ++ m2).take m2.length ++ (ch :: post).take (m2.length - (pre2 ++ m2).length) := by
          rw [List.take_append_eq_append_take]
        rw [hsub] at h1
        have hz : m2.length - (pre2 ++ m2).length = 0 := by
          simp [List.length_append]
        rw [hz] at h1
        simp only [List.take_zero, List.append_nil] at h1
        have := List.take_subset m2.length (pre2 ++ m2) h1
        rcases List.mem_append.mp this with h2 | h2
        · exact hp (List.mem_cons_of_mem c h2)
        · exact hm h2
    have hstep : splitAfterFirst (m2 ++ [ch]) ((c :: pre2) ++ (m2 ++ ch :: post)) =
        splitAfterFirst (m2 ++ [ch]) (pre2 ++ (m2 ++ ch :: post)) := by
      show splitAfterFirst (m2 ++ [ch]) (c :: (pre2 ++ (m2 ++ ch :: post))) = _
      unfold splitAfterFirst
      rw [if_neg (by simp [hnp]), ← splitAfterFirst.eq_def]
    rw [hstep]
    exact ih (fun hmem => hp (List.mem_cons_of_mem c hmem))

theorem takeUntilFirst_exact (ch : Char) (m2 body rest : List Char) (hb : ch ∉ body) :
    takeUntilFirst (ch :: m2) (body ++ (ch :: (m2 ++ rest))) = some body := by
  induction body with
  | nil =>
    simp only [List.nil_append]
    unfold takeUntilFirst
    rw [if_pos (List.isPrefixOf_iff_prefix.mpr ⟨rest, by simp⟩)]
  | cons c body2 ih =>
    have hcne : (ch == c) = false := by
      have : ch ≠ c := fun h => hb (h ▸ List.mem_cons_self c body2)
      simpa using this
    have hnp : (ch :: m2).isPrefixOf (c :: (body2 ++ (ch :: (m2 ++ rest)))) = false := by
      simp [List.isPrefixOf, hcne]
    show takeUntilFirst (ch :: m2) (c :: (body2 ++ (ch :: (m2 ++ rest)))) = some (c :: body2)
    unfold takeUntilFirst
    rw [if_neg (by simp [hnp]), ih (fun hmem => hb (List.mem_cons_of_mem c hmem))]
    rfl

theorem replaceBackticks_id (cs : List Char) (h : Char.ofNat 96 ∉ cs) :
    replaceBackticks cs = cs := by
  induction cs with
  | nil => rfl
  | cons c cs2 ih =>
    have hc : (c == Char.ofNat 96) = false := by
      have : c ≠ Char.ofNat 96 := fun he => h (he ▸ List.mem_cons_self c cs2)
      simpa using this
    have ih2 := ih (fun hmem => h (List.mem_cons_of_mem c hmem))
    unfold replaceBackticks at ih2 ⊢
    simp only [List.flatMap_cons, hc, Bool.false_eq_true, if_false, ih2]
    rfl

theorem strToList_append (a b : String) : (a ++ b).toList = a.toList ++ b.toList := rfl

theorem joinSepStr_no_char (sep : String) (ch : Char) (hs : ch ∉ sep.toList) :
    ∀ l : List String, (∀ s ∈ l, ch ∉ s.toList) → ch ∉ (joinSepStr sep l).toList := by
  intro l
  induction l with
  | nil =>
    intro _ hmem
    simp [joinSepStr] at hmem
  | cons s ss ih =>
    intro hl
    cases ss with
    | nil => exact hl s (List.mem_cons_self s [])
    | cons s2 ss2 =>
      show ch ∉ (s ++ sep ++ joinSepStr sep (s2 :: ss2)).toList
      rw [strToList_append, strToList_append]
      intro hmem
      rcases List.mem_append.mp hmem with h1 | h1
      · rcases List.mem_append.mp h1 with h2 | h2
        · exact hl s (List.mem_cons_self s _) h2
        · exact hs h2
      · exact ih (fun x hx => hl x (List.mem_cons_of_mem s hx)) h1

theorem imports_no_backtick (used : List String)
    (hused : ∀ s ∈ used, s ∈ ALLOWED_COMPONENTS) :
    Char.ofNat 96 ∉ (importsLineOf used).toList := by
  unfold importsLineOf
  rw [strToList_append, strToList_append]
  intro hmem
  rcases List.mem_append.mp hmem with h1 | h1
  · rcases List.mem_append.mp h1 with h2 | h2
    · exact absurd h2 (by decide)
    · refine joinSepStr_no_char ", " _ (by decide) _ ?_ h2
      intro s hs
      have hsub := dedupeAux_subset s [] _ hs
      rcases List.mem_append.mp hsub with h3 | h3
      · have hmem8 := hused s h3
        fin_cases hmem8 <;> decide
      · fin_cases h3 <;> decide
  · exact absurd h1 (by decide)


theorem generatedCode_decompose (p : UIPlan)
    (hbt : Char.ofNat 96 ∉ renderJson 0 (planToJson p)) :
    (generatedCodeOf p).toList =
      ((importsLineOf (dedupeAux [] (collectComponentsList p.root))).toList ++
          ('\n' :: '\n' :: [])) ++
        ("const uiPlanJson = ".toList ++ Char.ofNat 96 ::
          (renderJson 0 (planToJson p) ++ Char.ofNat 96 :: ';' ::
            ("\n\nexport default function GeneratedUI() \x7b\n  return (\n    <main className=\"space-y-4\">\n".toList ++
              ((composeLayout p.root p.mode).toList ++
                "\n    </main>\n  );\n\x7d\n".toList)))) := by
  unfold generatedCodeOf serializedPlanOf
  rw [strToList_append, strToList_append, strToList_append, strToList_append,
    strToList_append, strToList_append, strToList_append]
  rw [show (String.mk (replaceBackticks (renderJson 0 (planToJson p)))).toList =
      replaceBackticks (renderJson 0 (planToJson p)) from rfl]
  rw [replaceBackticks_id _ hbt]
  rw [show ("\n\nconst uiPlanJson = " : String).toList =
      '\n' :: '\n' :: "const uiPlanJson = ".toList from rfl]
  rw [show ((String.mk [Char.ofNat 96]) : String).toList = [Char.ofNat 96] from rfl]
  rw [show (";\n\nexport default function GeneratedUI() \x7b\n  return (\n    <main className=\"space-y-4\">\n" : String).toList =
      ';' :: "\n\nexport default function GeneratedUI() \x7b\n  return (\n    <main className=\"space-y-4\">\n".toList from rfl]
  simp [List.append_assoc]


/-- C6 (amended): a validated plan whose pretty-printed JSON contains no
backtick survives the generate-then-reparse round trip: `parsePlanFromCode`
on the generated source recovers the plan.  (With a backtick in any string
prop the `replace` escaping breaks the round trip: see the counterexample.) -/
theorem C6_marker_roundtrip (p : UIPlan)
    (hv : validatePlan (planToJson p) = some p)
    (hbt : (renderJson 0 (planToJson p)).contains (Char.ofNat 96) = false) :
    parsePlanFromCode (generatedCodeOf p) = some p := by
  have hbt2 : Char.ofNat 96 ∉ renderJson 0 (planToJson p) := by
    intro hmem
    have hc : (renderJson 0 (planToJson p)).contains (Char.ofNat 96) = true := by
      simpa using hmem
    rw [hc] at hbt
    cases hbt
  have hall : ∀ c ∈ collectComponentsList p.root, ALLOWED_COMPONENTS.contains c = true := by
    unfold validatePlan at hv
    cases hd : decodePlan (planToJson p) with
    | none => rw [hd] at hv; simp at hv
    | some q => exact (decodePlan_planToJson_inv p q hd).2
  have hpre : Char.ofNat 96 ∉
      ((importsLineOf (dedupeAux [] (collectComponentsList p.root))).toList ++
        ('\n' :: '\n' :: [])) := by
    intro hmem
    rcases List.mem_append.mp hmem with h1 | h1
    · refine imports_no_backtick _ ?_ h1
      intro s hs
      have := hall s (dedupeAux_subset s [] _ hs)
      simpa using this
    · exact absurd h1 (by decide)
  have hsplit : splitAfterFirst uiPlanMarker (generatedCodeOf p).toList =
      some (renderJson 0 (planToJson p) ++ Char.ofNat 96 :: ';' ::
        ("\n\nexport default function GeneratedUI() \x7b\n  return (\n    <main className=\"space-y-4\">\n".toList ++
          ((composeLayout p.root p.mode).toList ++
            "\n    </main>\n  );\n\x7d\n".toList))) := by
    rw [generatedCode_decompose p hbt2]
    rw [show uiPlanMarker = "const uiPlanJson = ".toList ++ [Char.ofNat 96] from rfl]
    exact splitAfterFirst_exact _ _ _ _ (by decide) hpre
  have htake : takeUntilFirst [Char.ofNat 96, ';']
      (renderJson 0 (planToJson p) ++ Char.ofNat 96 :: ';' ::
        ("\n\nexport default function GeneratedUI() \x7b\n  return (\n    <main className=\"space-y-4\">\n".toList ++
          ((composeLayout p.root p.mode).toList ++
            "\n    </main>\n  );\n\x7d\n".toList))) =
      some (renderJson 0 (planToJson p)) := by
    rw [show ([Char.ofNat 96, ';'] : List Char) = Char.ofNat 96 :: [';'] from rfl]
    rw [show (renderJson 0 (planToJson p) ++ Char.ofNat 96 :: ';' ::
        ("\n\nexport default function GeneratedUI() \x7b\n  return (\n    <main className=\"space-y-4\">\n".toList ++
          ((composeLayout p.root p.mode).toList ++
            "\n    </main>\n  );\n\x7d\n".toList))) =
        renderJson 0 (planToJson p) ++ (Char.ofNat 96 :: ([';'] ++
          ("\n\nexport default function GeneratedUI() \x7b\n  return (\n    <main className=\"space-y-4\">\n".toList ++
            ((composeLayout p.root p.mode).toList ++
              "\n    </main>\n  );\n\x7d\n".toList)))) from rfl]
    exact takeUntilFirst_exact _ _ _ _ hbt2
  simp only [parsePlanFromCode, hsplit, htake, jsonParse_renderJson, hv]


/-- A validated plan whose Card title contains a backtick. -/
def btPlan : UIPlan :=
  UIPlan.mk "stack"
    [UINode.mk "c1" "Card"
      [("title", Json.str (String.mk ['a', Char.ofNat 96, 'b']))] none] none

/-- A validated backtick-free plan, the witness input. -/
def c6Plan : UIPlan :=
  UIPlan.mk "grid" [UINode.mk "n1" "Card" [("title", Json.str "Hi")] none] none

/-- C6 counterexample: `btPlan` passes `validatePlan`, yet re-parsing the
generated code fails (the emitted blob escapes the backtick, so `JSON.parse`
sees an invalid escape): the plan is not retrievable. -/
theorem C6_backtick_counterexample :
    validatePlan (planToJson btPlan) = some btPlan ∧
      runGenerator btPlan = Except.ok (GeneratorResult.mk (generatedCodeOf btPlan)
        (dedupeAux [] (collectComponentsList btPlan.root))) ∧
      parsePlanFromCode (generatedCodeOf btPlan) = none := by
  refine ⟨rfl, ?_, rfl⟩
  unfold runGenerator
  rw [show validatePlan (planToJson btPlan) = some btPlan from rfl]
  rfl

theorem C6_marker_roundtrip_witness :
    validatePlan (planToJson c6Plan) = some c6Plan ∧
      (renderJson 0 (planToJson c6Plan)).contains (Char.ofNat 96) = false ∧
      parsePlanFromCode (generatedCodeOf c6Plan) = some c6Plan :=
  ⟨rfl, rfl, C6_marker_roundtrip c6Plan rfl rfl⟩

end UIB
